import Mathlib

/-!
Verification of the XRayViewer local persistence and study-library subsystem.

Shallow embedding of:
* the DICOM grouping service (`groupDicomFiles`, `getImageCount`,
  `flattenToImageIds` from the grouping service file),
* the study library storage service (`saveStudyToLibrary`,
  `loadStudyFromLibrary`, `deleteStudyFromLibrary`, `isStudyInLibrary`),
* the preference store (`getPreferences`, `savePreferences`, `setPreference`),
* the thumbnail generator (`generateThumbnail`).

Modelling conventions:
* IndexedDB object stores are in-memory record lists keyed by their primary
  key: `put` is upsert by key, an index `getAll`/key-cursor scan returns the
  records matching the index key in primary-key order, and `delete` by key
  succeeds whether or not a record exists.
* JavaScript `Array.prototype.sort` (stable since ES2019) is modelled by the
  stable insertion sort `sortStable`; a comparator returning `NaN` (the
  `Infinity - Infinity` case for two absent numbers) is treated as "equal",
  matching engine behaviour.
* JavaScript string comparison (`localeCompare`, IndexedDB key order) is
  modelled by lexicographic comparison of the character lists; machine
  numbers that the code treats as integers (instance/series numbers, sizes,
  timestamps) are `Int`/`Nat`.
* Asynchrony is irrelevant to the claims (single-threaded, each operation is
  modelled as a whole); `Date.now()` values are explicit `now` parameters.
-/

/-! ## Stable sort: model of `Array.prototype.sort` with a comparator -/

/-- Insert `x` in front of the first element `y` with `le x y`; a stable
insertion step (elements inserted earlier stay in front of later ties). -/
def insertStable {α : Type} (le : α → α → Bool) (x : α) : List α → List α
  | [] => [x]
  | y :: ys => if le x y then x :: y :: ys else y :: insertStable le x ys

/-- Stable sort by the boolean relation `le`: the unique permutation that is
sorted w.r.t. `le` and keeps the original order of `le`-ties, which is the
specified behaviour of `Array.prototype.sort`. -/
def sortStable {α : Type} (le : α → α → Bool) (l : List α) : List α :=
  l.foldr (insertStable le) []

/-! ## String comparison: model of `localeCompare` / IndexedDB key order -/

/-- Lexicographic comparison of character lists. -/
def charsLe : List Char → List Char → Bool
  | [], _ => true
  | _ :: _, [] => false
  | a :: as, b :: bs => if a < b then true else if b < a then false else charsLe as bs

/-- String order used to model `localeCompare` (for the plain ASCII strings the
code compares, locale collation agrees with code-point order) and IndexedDB's
ordering of string primary keys. -/
def strLe (a b : String) : Bool := charsLe a.data b.data

/-! ## Grouping engine (DICOM file grouping service)

Embedding of `groupDicomFiles`, `addToUnknown`, `getImageCount` and
`flattenToImageIds`. An `ImageHandle` models an opaque cornerstone image id
together with what the `metaData.get` accessors answer for it; a handle with
`metaThrows = true` models one whose metadata fetch throws (the `catch` path).
The `file: null` and `loaded: true` fields of the source's `DicomImage` carry
no information and are omitted. -/

structure DicomImage where
  imageId : String
  instanceNumber : Option Int
deriving DecidableEq

structure DicomSeries where
  seriesInstanceUid : String
  seriesNumber : Option Int
  seriesDescription : Option String
  modality : Option String
  images : List DicomImage
deriving DecidableEq

structure DicomStudy where
  studyInstanceUid : String
  studyDate : Option String
  studyDescription : Option String
  patientName : Option String
  patientId : Option String
  series : List DicomSeries
deriving DecidableEq

structure ImageHandle where
  imageId : String
  metaThrows : Bool
  studyInstanceUID : Option String
  studyDate : Option String
  studyDescription : Option String
  patientName : Option String
  patientId : Option String
  seriesInstanceUID : Option String
  seriesNumber : Option Int
  seriesDescription : Option String
  modality : Option String
  instanceNumber : Option Int
deriving DecidableEq

/-- JavaScript truthiness of an optional string: `undefined` and `""` are
falsy, so `x || d` yields `d` for both. -/
def truthyStr : Option String → Option String
  | some s => if s = "" then none else some s
  | none => none

/-- JavaScript truthiness of an optional number: `undefined` and `0` are
falsy (`NaN` is not modelled). -/
def truthyInt : Option Int → Option Int
  | some n => if n = 0 then none else some n
  | none => none

/-- The study key a handle is grouped under:
`generalStudyModule.studyInstanceUID || 'unknown-study'`, or the synthetic
bucket when the metadata fetch throws. -/
def studyKeyOf (h : ImageHandle) : String :=
  if h.metaThrows then "unknown-study" else (truthyStr h.studyInstanceUID).getD "unknown-study"

/-- The series key a handle is grouped under:
`generalSeriesModule.seriesInstanceUID || 'unknown-series'`, or the synthetic
bucket when the metadata fetch throws. -/
def seriesKeyOf (h : ImageHandle) : String :=
  if h.metaThrows then "unknown-series" else (truthyStr h.seriesInstanceUID).getD "unknown-series"

/-- A handle whose metadata yields no usable study instance UID. -/
def lacksStudyUID (h : ImageHandle) : Bool :=
  h.metaThrows || (truthyStr h.studyInstanceUID).isNone

/-- A handle whose metadata yields no usable series instance UID. -/
def lacksSeriesUID (h : ImageHandle) : Bool :=
  h.metaThrows || (truthyStr h.seriesInstanceUID).isNone

/-- Get-or-create update of a keyed list: the JS `Map.get`/`Map.set` (and the
`Array.find`/`push`) pattern. If some element has key `uid`, apply `upd` to
the first such element in place; otherwise append `upd fresh` (a `Map.set` of
a new key appends in insertion order). -/
def updateKeyed {α : Type} (key : α → String) (uid : String) (fresh : α)
    (upd : α → α) : List α → List α
  | [] => [upd fresh]
  | x :: xs => if key x = uid then upd x :: xs else x :: updateKeyed key uid fresh upd xs

/-- `series.images.push(img)`. -/
def pushImage (img : DicomImage) (ser : DicomSeries) : DicomSeries :=
  { ser with images := ser.images ++ [img] }

/-- The series record created on first occurrence of `serUid` (fields from the
current handle's metadata). -/
def freshSeriesOf (h : ImageHandle) (serUid : String) : DicomSeries :=
  { seriesInstanceUid := serUid, seriesNumber := h.seriesNumber,
    seriesDescription := h.seriesDescription, modality := h.modality, images := [] }

/-- The study record created on first occurrence of `sUid` (fields from the
current handle's metadata). -/
def freshStudyOf (h : ImageHandle) (sUid : String) : DicomStudy :=
  { studyInstanceUid := sUid, studyDate := h.studyDate,
    studyDescription := h.studyDescription, patientName := h.patientName,
    patientId := h.patientId, series := [] }

/-- The synthetic study created by `addToUnknown`. -/
def unknownStudyFresh : DicomStudy :=
  { studyInstanceUid := "unknown-study", studyDate := none,
    studyDescription := some "Unknown Study", patientName := none,
    patientId := none, series := [] }

/-- The synthetic series created by `addToUnknown`. -/
def unknownSeriesFresh : DicomSeries :=
  { seriesInstanceUid := "unknown-series", seriesNumber := none,
    seriesDescription := some "Unknown Series", modality := none, images := [] }

/-- `addToUnknown(studyMap, imageId)`: route an image whose metadata fetch
threw to the `"unknown-study"` / `"unknown-series"` bucket (image metadata
`{}`, i.e. no instance number). -/
def addToUnknown (studies : List DicomStudy) (imageId : String) : List DicomStudy :=
  updateKeyed (fun st => st.studyInstanceUid) "unknown-study" unknownStudyFresh
    (fun st =>
      { st with series :=
          (updateKeyed (fun ser => ser.seriesInstanceUid) "unknown-series" unknownSeriesFresh
            (pushImage { imageId := imageId, instanceNumber := none }) st.series) })
    studies

/-- One iteration of the `for (const imageId of imageIds)` loop of
`groupDicomFiles`: fetch metadata, get-or-create the study and the series,
append the image; on a metadata throw, fall back to `addToUnknown`. -/
def processHandle (studies : List DicomStudy) (h : ImageHandle) : List DicomStudy :=
  if h.metaThrows then addToUnknown studies h.imageId
  else
    let sUid := (truthyStr h.studyInstanceUID).getD "unknown-study"
    let serUid := (truthyStr h.seriesInstanceUID).getD "unknown-series"
    updateKeyed (fun st => st.studyInstanceUid) sUid (freshStudyOf h sUid)
      (fun st =>
        { st with series :=
            (updateKeyed (fun ser => ser.seriesInstanceUid) serUid (freshSeriesOf h serUid)
              (pushImage { imageId := h.imageId, instanceNumber := h.instanceNumber }) st.series) })
      studies

/-- The grouped studies in insertion order, before the final sorts
(`Array.from(studyMap.values())`). -/
def groupUnsorted (handles : List ImageHandle) : List DicomStudy :=
  handles.foldl processHandle []

/-- The warnings recorded by the `catch` branch (`console.warn(...)`), one per
handle whose metadata fetch threw, in processing order. -/
def groupWarnings (handles : List ImageHandle) : List String :=
  (handles.filter (fun h => h.metaThrows)).map (fun h => h.imageId)

/-- Comparator `(a.seriesNumber ?? Infinity) - (b.seriesNumber ?? Infinity)`
read as "a sorts no later than b"; two absent numbers give `NaN`, which
`Array.sort` treats as equal. -/
def optNumLe (a b : Option Int) : Bool :=
  match a, b with
  | some x, some y => decide (x ≤ y)
  | some _, none => true
  | none, some _ => false
  | none, none => true

def seriesLe (a b : DicomSeries) : Bool := optNumLe a.seriesNumber b.seriesNumber

def imageLe (a b : DicomImage) : Bool := optNumLe a.instanceNumber b.instanceNumber

/-- Comparator of the final study sort (`if (!a.studyDate && !b.studyDate)`
etc., then `b.studyDate.localeCompare(a.studyDate)`), read as "a sorts no
later than b". `!x.studyDate` tests JS falsiness, so an `undefined` date and
an empty-string date are both "no date": truthy-dated studies sort by date
descending, falsy-dated studies sort after all of them, and two falsy-dated
studies compare equal. A truthy date is nonempty, so comparing the
truthiness-normalised values coincides with the source's comparison of the
raw strings. -/
def studyLe (a b : DicomStudy) : Bool :=
  match truthyStr a.studyDate, truthyStr b.studyDate with
  | none, none => true
  | none, some _ => false
  | some _, none => true
  | some x, some y => strLe y x

/-- The per-study part of the final sorting pass: sort the series by series
number, then the images of each series by instance number. -/
def sortStudyContents (st : DicomStudy) : DicomStudy :=
  { st with series :=
      ((sortStable seriesLe st.series).map
        (fun ser => { ser with images := sortStable imageLe ser.images })) }

/-- `groupDicomFiles(imageIds)`: group every handle, sort series and images
within each study, sort the studies by date (newest first), and return the
studies together with the recorded warnings. -/
def groupDicomFiles (handles : List ImageHandle) : List DicomStudy × List String :=
  (sortStable studyLe ((groupUnsorted handles).map sortStudyContents),
   groupWarnings handles)

/-- `getImageCount(studies)`: total number of images in the tree. -/
def getImageCount (studies : List DicomStudy) : Nat :=
  studies.foldl
    (fun total study =>
      total + study.series.foldl (fun seriesTotal ser => seriesTotal + ser.images.length) 0)
    0

/-- `flattenToImageIds(studies)`: all image ids in study-major, series-major,
instance-minor order. -/
def flattenToImageIds (studies : List DicomStudy) : List String :=
  studies.foldl
    (fun acc study =>
      study.series.foldl (fun acc2 ser => acc2 ++ ser.images.map (fun im => im.imageId)) acc)
    []

/-- Does `ser` contain an image with id `imgId`? -/
def seriesHasImage (ser : DicomSeries) (imgId : String) : Bool :=
  ser.images.any (fun im => im.imageId == imgId)

/-- Does `st` contain `imgId` inside a series keyed `serUid`? -/
def studyHasImageIn (st : DicomStudy) (serUid imgId : String) : Bool :=
  st.series.any (fun ser => ser.seriesInstanceUid == serUid && seriesHasImage ser imgId)

/-- Does the grouped result contain `imgId` inside series `serUid` of study
`sUid`? -/
def studiesHaveImage (res : List DicomStudy) (sUid serUid imgId : String) : Bool :=
  res.any (fun st => st.studyInstanceUid == sUid && studyHasImageIn st serUid imgId)

/-- Does the grouped result contain `imgId` somewhere inside study `sUid`? -/
def studiesHaveImageInStudy (res : List DicomStudy) (sUid imgId : String) : Bool :=
  res.any (fun st => st.studyInstanceUid == sUid && st.series.any (fun ser => seriesHasImage ser imgId))

/-- The ordering sentence of the spec's sort-invariant claim, as a decidable
predicate over a grouped result: for every ordered pair of positions holding
dated studies, "S1 appears before S2 iff S1.studyDate >= S2.studyDate". -/
def claimedStudyDateOrder (res : List DicomStudy) : Bool :=
  res.enum.all fun p1 => res.enum.all fun p2 =>
    match p1.2.studyDate, p2.2.studyDate with
    | some d1, some d2 => (p1.1 == p2.1) || (decide (p1.1 < p2.1) == strLe d2 d1)
    | _, _ => true

/-! ## Study library storage service (IndexedDB-backed)

Embedding of `saveStudyToLibrary`, `loadStudyFromLibrary`,
`deleteStudyFromLibrary` and `isStudyInLibrary` over an in-memory model of
the `studies` / `images` / `recentFiles` object stores. A `SaveFile` models a
`File` argument of `saveStudyToLibrary` together with what the `metaData.get`
accessors answer for the image id obtained by registering it
(`wadouri.fileManager.add(file)`); `metaThrows = true` models the metadata
block throwing (at its first accessor), in which case all three positional
defaults are used. -/

structure StoredStudy where
  id : String
  patientName : Option String
  studyDate : Option String
  studyDescription : Option String
  modality : Option String
  imageCount : Nat
  totalSize : Nat
  importedAt : Nat
  lastViewedAt : Nat
  thumbnailDataUrl : Option String
deriving DecidableEq

structure StoredImage where
  imageId : String
  studyId : String
  seriesId : String
  instanceNumber : Int
  dicomBytes : List Nat
  size : Nat
deriving DecidableEq

structure RecentFile where
  id : String
  name : String
  studyId : Option String
  studyDescription : Option String
  modality : Option String
  imageCount : Option Nat
  isInLibrary : Option Bool
  timestamp : Nat
deriving DecidableEq

/-- The three object stores the claims touch (`studies`, `images`,
`recentFiles`); `preferences` is modelled separately and `thumbnails` is not
touched by any claim. -/
structure DB where
  studies : List StoredStudy
  images : List StoredImage
  recentFiles : List RecentFile
deriving DecidableEq

def emptyDB : DB := { studies := [], images := [], recentFiles := [] }

/-- IndexedDB `store.put` (upsert by primary key): replace the record with the
same key, else append. -/
def putByKey {α : Type} (key : α → String) (v : α) : List α → List α
  | [] => [v]
  | x :: xs => if key x = key v then v :: xs else x :: putByKey key v xs

/-- Records matching `studyId` under the `studyId` index, in primary-key
(`imageId`) order, as IndexedDB index scans return them. -/
def imagesByStudyIndex (images : List StoredImage) (studyId : String) : List StoredImage :=
  sortStable (fun a b => strLe a.imageId b.imageId)
    (images.filter (fun im => im.studyId == studyId))

structure SaveFile where
  bytes : List Nat
  seriesInstanceUID : Option String
  instanceNumber : Option Int
  sopInstanceUID : Option String
  metaThrows : Bool
deriving DecidableEq

/-- The `studyMetadata` argument of `saveStudyToLibrary`. -/
structure StudyMetadataArg where
  studyInstanceUid : String
  patientName : Option String
  studyDate : Option String
  studyDescription : Option String
  modality : Option String
deriving DecidableEq

/-- The `StoredImage` derived from file number `i`: series id, instance number
and image id from the metadata when the corresponding module field is truthy
(`if (m?.field)`), otherwise the positional defaults `'unknown-series'`, `i`
and `` `${studyUid}-${i}` ``. -/
def deriveStoredImage (meta : StudyMetadataArg) (i : Nat) (f : SaveFile) : StoredImage :=
  let defaultImageId := meta.studyInstanceUid ++ "-" ++ toString i
  if f.metaThrows then
    { imageId := defaultImageId, studyId := meta.studyInstanceUid,
      seriesId := "unknown-series", instanceNumber := (i : Int),
      dicomBytes := f.bytes, size := f.bytes.length }
  else
    { imageId := (truthyStr f.sopInstanceUID).getD defaultImageId,
      studyId := meta.studyInstanceUid,
      seriesId := (truthyStr f.seriesInstanceUID).getD "unknown-series",
      instanceNumber := (truthyInt f.instanceNumber).getD (i : Int),
      dicomBytes := f.bytes, size := f.bytes.length }

/-- The `storedImages` array built by the per-file loop, in file order. -/
def derivedImages (meta : StudyMetadataArg) (files : List SaveFile) : List StoredImage :=
  files.enum.map (fun p => deriveStoredImage meta p.1 p.2)

/-- Comparator `(a, b) => a.instanceNumber - b.instanceNumber`. -/
def instLe (a b : StoredImage) : Bool := decide (a.instanceNumber ≤ b.instanceNumber)

/-- The `StoredStudy` record `saveStudyToLibrary` writes. -/
def buildStoredStudy (meta : StudyMetadataArg) (fileCount totalSize now : Nat) : StoredStudy :=
  { id := meta.studyInstanceUid, patientName := meta.patientName,
    studyDate := meta.studyDate, studyDescription := meta.studyDescription,
    modality := meta.modality, imageCount := fileCount, totalSize := totalSize,
    importedAt := now, lastViewedAt := now, thumbnailDataUrl := none }

/-- `addRecentFile(file)`: id is `file.studyId || \`${file.name}-${Date.now()}\``,
then `put` into the recent-files store. -/
def addRecentFile (db : DB) (name : String) (studyId : Option String)
    (studyDescription modality : Option String) (imageCount : Option Nat)
    (isInLibrary : Option Bool) (now : Nat) : DB :=
  let rf : RecentFile :=
    { id := (truthyStr studyId).getD (name ++ "-" ++ toString now), name := name,
      studyId := studyId, studyDescription := studyDescription, modality := modality,
      imageCount := imageCount, isInLibrary := isInLibrary, timestamp := now }
  { db with recentFiles := putByKey (fun r => r.id) rf db.recentFiles }

/-- `saveStudyToLibrary(files, studyMetadata)` (the path where every write
succeeds): derive a `StoredImage` per file, sort them by instance number,
`put` the study record then every image record, and append a recent-file
entry. Returns the updated stores and the study record. -/
def saveStudyToLibrary (db : DB) (files : List SaveFile) (meta : StudyMetadataArg)
    (now : Nat) : DB × StoredStudy :=
  let sortedImages := sortStable instLe (derivedImages meta files)
  let totalSize := (files.map (fun f => f.bytes.length)).sum
  let study := buildStoredStudy meta files.length totalSize now
  let db1 : DB := { db with studies := putByKey (fun s => s.id) study db.studies }
  let db2 : DB :=
    { db1 with images := sortedImages.foldl (fun imgs im => putByKey (fun s => s.imageId) im imgs) db1.images }
  let db3 := addRecentFile db2 ((truthyStr meta.studyDescription).getD "Unknown Study")
    (some meta.studyInstanceUid) meta.studyDescription meta.modality
    (some files.length) (some true) now
  (db3, study)

/-- Which kind of failure the storage engine reports on a rejected `put`
request (`request.error`); `QuotaExceededError` is the storage-full case. -/
inductive IDBFailureKind where
  | quotaExceeded
  | generic
deriving DecidableEq

/-- The errors `saveStudyToLibrary` rejects with. Each is a fresh
`new Error('Failed to save study')` / `new Error('Failed to save image')`
with a constant message: no constructor carries the engine's failure kind. -/
inductive SaveError where
  | failedToSaveStudy
  | failedToSaveImage
deriving DecidableEq

/-- `saveStudyToLibrary` with an injected engine failure: `failAt = some (0, k)`
makes the `studiesStore.put` request fail with kind `k`, `some (i + 1, k)`
makes the put of the `i`-th (sorted) image record fail, `none` (or an index
past the last write) lets every write succeed. The transaction is aborted on
failure, so no partial state is returned. The rejection handlers of the source
build the surfaced error from a constant message and discard `request.error`,
which is why the construction below never inspects `k`. -/
def saveStudyToLibraryE (db : DB) (files : List SaveFile) (meta : StudyMetadataArg)
    (now : Nat) (failAt : Option (Nat × IDBFailureKind)) :
    Except SaveError (DB × StoredStudy) :=
  match failAt with
  | none => .ok (saveStudyToLibrary db files meta now)
  | some (0, _) => .error .failedToSaveStudy
  | some (n + 1, _) =>
    if n < (derivedImages meta files).length then .error .failedToSaveImage
    else .ok (saveStudyToLibrary db files meta now)

/-- `updateStudyLastViewed(studyId)`: best-effort rewrite of `lastViewedAt`. -/
def updateStudyLastViewed (db : DB) (studyId : String) (now : Nat) : DB :=
  match db.studies.find? (fun s => s.id == studyId) with
  | none => db
  | some study =>
    { db with studies := putByKey (fun s => s.id) { study with lastViewedAt := now } db.studies }

/-- `loadStudyFromLibrary(studyId)`: fetch the study record, fetch its image
records via the `studyId` index, sort them by instance number, and update
`lastViewedAt`. Registering each record with the cornerstone file manager is
opaque; the returned `StoredImage` list carries, per image, the `dicomBytes`
that the registered file is built from, in the order the image ids are
returned. -/
def loadStudyFromLibrary (db : DB) (studyId : String) (now : Nat) :
    Option (StoredStudy × List StoredImage) × DB :=
  match db.studies.find? (fun s => s.id == studyId) with
  | none => (none, db)
  | some study =>
    let images := sortStable instLe (imagesByStudyIndex db.images studyId)
    (some (study, images), updateStudyLastViewed db studyId now)

/-- `deleteStudyFromLibrary(studyId)`: delete the study record by key, then
enumerate the primary keys of the image records matching `studyId` via the
index key cursor and delete each one. IndexedDB `delete` succeeds whether or
not a record with the key exists, and the per-image `onerror` handlers
resolve, so absent an engine-level failure the operation always completes. -/
def deleteStudyFromLibrary (db : DB) (studyId : String) : DB :=
  let afterStudies := db.studies.filter (fun s => s.id != studyId)
  let keys := (imagesByStudyIndex db.images studyId).map (fun im => im.imageId)
  let afterImages := keys.foldl (fun imgs k => imgs.filter (fun im => im.imageId != k)) db.images
  { studies := afterStudies, images := afterImages, recentFiles := db.recentFiles }

/-- `isStudyInLibrary(studyId)`: `store.count(studyId) > 0`. -/
def isStudyInLibrary (db : DB) (studyId : String) : Bool :=
  decide (0 < db.studies.countP (fun s => s.id == studyId))

/-! ### Operation sequences over the library (for the referential-integrity
invariant) -/

inductive LibOp where
  | save : List SaveFile → StudyMetadataArg → Nat → LibOp
  | del : String → LibOp
deriving DecidableEq

def execOp (db : DB) : LibOp → DB
  | .save files meta now => (saveStudyToLibrary db files meta now).1
  | .del id => deleteStudyFromLibrary db id

def execOps (db : DB) (ops : List LibOp) : DB := ops.foldl execOp db

/-- The spec's referential-integrity invariant: for every stored study, the
number of image rows carrying its `studyId` equals its `imageCount` field. -/
def imageCountInvariant (db : DB) : Prop :=
  ∀ s ∈ db.studies, db.images.countP (fun im => im.studyId == s.id) = s.imageCount

instance (db : DB) : Decidable (imageCountInvariant db) := by
  unfold imageCountInvariant; infer_instance

/-- Precondition under which one `saveStudyToLibrary` call keeps the
referential-integrity invariant: the image ids derived from the files are
pairwise distinct, collide with no image row already in the store, and no
image row already carries this study id (true in particular for a first-time
save of a study with globally fresh SOP instance UIDs). -/
def saveOk (db : DB) (files : List SaveFile) (meta : StudyMetadataArg) : Bool :=
  let ids := (derivedImages meta files).map (fun im => im.imageId)
  decide ids.Nodup &&
    db.images.all (fun im => !(ids.contains im.imageId)) &&
    db.images.all (fun im => im.studyId != meta.studyInstanceUid)

/-- Does every save in the sequence satisfy `saveOk` in the store state it
actually runs against? -/
def validOps (db : DB) : List LibOp → Bool
  | [] => true
  | op :: rest =>
    (match op with
     | .save files meta _ => saveOk db files meta
     | .del _ => true) && validOps (execOp db op) rest

/-! ## Preference store -/

structure Preferences where
  showPhiData : Bool
  showMetadataSidebar : Bool
  showThumbnailStrip : Bool
  showLibraryPanel : Bool
  defaultTool : String
  invertColors : Bool
deriving DecidableEq

/-- A possibly-partial preferences object as stored under the
`userPreferences` key (absent fields are `none`). -/
structure StoredPrefs where
  showPhiData : Option Bool
  showMetadataSidebar : Option Bool
  showThumbnailStrip : Option Bool
  showLibraryPanel : Option Bool
  defaultTool : Option String
  invertColors : Option Bool
deriving DecidableEq

def DEFAULT_PREFERENCES : Preferences :=
  { showPhiData := false, showMetadataSidebar := true, showThumbnailStrip := true,
    showLibraryPanel := false, defaultTool := "WindowLevel", invertColors := false }

/-- The object spread `{ ...base, ...p }`: a field present on `p` overrides
the one of `base`. -/
def spreadPrefs (base : Preferences) (p : StoredPrefs) : Preferences :=
  { showPhiData := p.showPhiData.getD base.showPhiData,
    showMetadataSidebar := p.showMetadataSidebar.getD base.showMetadataSidebar,
    showThumbnailStrip := p.showThumbnailStrip.getD base.showThumbnailStrip,
    showLibraryPanel := p.showLibraryPanel.getD base.showLibraryPanel,
    defaultTool := p.defaultTool.getD base.defaultTool,
    invertColors := p.invertColors.getD base.invertColors }

def toStoredPrefs (c : Preferences) : StoredPrefs :=
  { showPhiData := some c.showPhiData, showMetadataSidebar := some c.showMetadataSidebar,
    showThumbnailStrip := some c.showThumbnailStrip, showLibraryPanel := some c.showLibraryPanel,
    defaultTool := some c.defaultTool, invertColors := some c.invertColors }

def emptyStoredPrefs : StoredPrefs :=
  { showPhiData := none, showMetadataSidebar := none, showThumbnailStrip := none,
    showLibraryPanel := none, defaultTool := none, invertColors := none }

/-- `getPreferences()` on a readable store: spread the stored partial value
over the defaults, or the pure defaults when nothing was ever stored. -/
def getPreferences (stored : Option StoredPrefs) : Preferences :=
  match stored with
  | some p => spreadPrefs DEFAULT_PREFERENCES p
  | none => DEFAULT_PREFERENCES

/-- `getPreferences()` with the failure path: both the `request.onerror`
handler and the surrounding `catch` resolve to the defaults, so a failing
read still returns (never throws). -/
def getPreferencesSafe (stored : Option StoredPrefs) (readFails : Bool) : Preferences :=
  if readFails then DEFAULT_PREFERENCES else getPreferences stored

/-- `savePreferences(prefs)`: read-merge-write — spread the partial update
over the current merged value and store the full result. -/
def savePreferences (stored : Option StoredPrefs) (prefs : StoredPrefs) : Option StoredPrefs :=
  some (toStoredPrefs (spreadPrefs (getPreferences stored) prefs))

/-- `setPreference('showPhiData', value)` =
`savePreferences({ showPhiData: value })`. -/
def setPreferenceShowPhiData (stored : Option StoredPrefs) (value : Bool) : Option StoredPrefs :=
  savePreferences stored { emptyStoredPrefs with showPhiData := some value }

/-! ## Thumbnail generator -/

/-- `Math.round((shorter / longer) * maxSize)` computed exactly over naturals:
`⌊(shorter / longer) * maxSize + 1/2⌋ = (2 * shorter * maxSize + longer) / (2 * longer)`
(`Math.round` rounds half up; the value is nonnegative). -/
def roundedScale (shorter longer maxSize : Nat) : Nat :=
  (2 * shorter * maxSize + longer) / (2 * longer)

/-- The dimensions `generateThumbnail(canvas, maxSize)` gives the thumbnail
canvas (the raster drawing and JPEG re-encode are opaque): start from a
`maxSize × maxSize` box and shrink the side opposite the longer one. -/
def generateThumbnailDims (width height maxSize : Nat) : Nat × Nat :=
  if width > height then (maxSize, roundedScale height width maxSize)
  else (roundedScale width height maxSize, maxSize)

/-! ## Derived predicates and sample inputs -/

/-- The study component of a `loadStudyFromLibrary` result. -/
def loadedStudy (r : Option (StoredStudy × List StoredImage)) : Option StoredStudy :=
  r.map (fun p => p.1)

/-- The image list of a `loadStudyFromLibrary` result (`[]` on not-found). -/
def loadedImages (r : Option (StoredStudy × List StoredImage)) : List StoredImage :=
  (r.map (fun p => p.2)).getD []

/-- Well-formedness of the modelled stores: primary keys are unique (as
IndexedDB guarantees) and the referential-integrity invariant holds. -/
def GoodDB (db : DB) : Prop :=
  (db.studies.map (fun s => s.id)).Nodup ∧
  (db.images.map (fun im => im.imageId)).Nodup ∧
  imageCountInvariant db

/-- Key uniqueness of a grouped study list: study UIDs are pairwise distinct
and, within each study, series UIDs are pairwise distinct (the `Map` /
`Array.find` get-or-create discipline). -/
def StudyKeysNodup (studies : List DicomStudy) : Prop :=
  ((studies.map (fun st => st.studyInstanceUid)).Nodup) ∧
  ∀ st ∈ studies, ((st.series.map (fun s => s.seriesInstanceUid)).Nodup)

/-- A dated sample handle (study `study-a`, date `20230101`). -/
def sampleHandleA : ImageHandle :=
  { imageId := "img-a", metaThrows := false, studyInstanceUID := some "study-a",
    studyDate := some "20230101", studyDescription := none, patientName := none,
    patientId := none, seriesInstanceUID := some "ser-a", seriesNumber := some 1,
    seriesDescription := none, modality := none, instanceNumber := some 1 }

/-- A second dated sample handle with a distinct study but the same date. -/
def sampleHandleB : ImageHandle :=
  { imageId := "img-b", metaThrows := false, studyInstanceUID := some "study-b",
    studyDate := some "20230101", studyDescription := none, patientName := none,
    patientId := none, seriesInstanceUID := some "ser-b", seriesNumber := some 1,
    seriesDescription := none, modality := none, instanceNumber := some 1 }

/-- A handle whose metadata fetch throws. -/
def sampleHandleBad : ImageHandle :=
  { imageId := "img-bad", metaThrows := true, studyInstanceUID := none,
    studyDate := none, studyDescription := none, patientName := none,
    patientId := none, seriesInstanceUID := none, seriesNumber := none,
    seriesDescription := none, modality := none, instanceNumber := none }

/-- A handle with no study and no series UID. -/
def sampleHandleNoUid : ImageHandle :=
  { imageId := "img-nouid", metaThrows := false, studyInstanceUID := none,
    studyDate := none, studyDescription := none, patientName := none,
    patientId := none, seriesInstanceUID := none, seriesNumber := none,
    seriesDescription := none, modality := none, instanceNumber := none }

def sampleMeta : StudyMetadataArg :=
  { studyInstanceUid := "study-1", patientName := none, studyDate := none,
    studyDescription := none, modality := none }

def sampleFile1 : SaveFile :=
  { bytes := [1], seriesInstanceUID := some "ser-1", instanceNumber := some 1,
    sopInstanceUID := some "sop-1", metaThrows := false }

def sampleFile2 : SaveFile :=
  { bytes := [2], seriesInstanceUID := some "ser-1", instanceNumber := some 1,
    sopInstanceUID := some "sop-2", metaThrows := false }

/-- Two files whose metadata carries the same SOP instance UID, so both derive
the same `imageId`. -/
def dupFileA : SaveFile :=
  { bytes := [1], seriesInstanceUID := some "ser-1", instanceNumber := some 1,
    sopInstanceUID := some "sop-dup", metaThrows := false }

def dupFileB : SaveFile :=
  { bytes := [2], seriesInstanceUID := some "ser-1", instanceNumber := some 2,
    sopInstanceUID := some "sop-dup", metaThrows := false }

/-- The round-trip scenario files: instance numbers `[3, 1, 2]`. -/
def rtFile0 : SaveFile :=
  { bytes := [10], seriesInstanceUID := some "ser-rt", instanceNumber := some 3,
    sopInstanceUID := some "sop-r0", metaThrows := false }

def rtFile1 : SaveFile :=
  { bytes := [11], seriesInstanceUID := some "ser-rt", instanceNumber := some 1,
    sopInstanceUID := some "sop-r1", metaThrows := false }

def rtFile2 : SaveFile :=
  { bytes := [12], seriesInstanceUID := some "ser-rt", instanceNumber := some 2,
    sopInstanceUID := some "sop-r2", metaThrows := false }

/-! ## Theorems -/

theorem insertStable_perm {α : Type} (le : α → α → Bool) (x : α) (l : List α) :
    List.Perm (insertStable le x l) (x :: l) := by
  induction l with
  | nil => exact List.Perm.refl _
  | cons y ys ih =>
    simp only [insertStable]
    split
    · exact List.Perm.refl _
    · exact (List.Perm.cons y ih).trans (List.Perm.swap x y ys)

theorem sortStable_perm {α : Type} (le : α → α → Bool) (l : List α) :
    List.Perm (sortStable le l) l := by
  induction l with
  | nil => exact List.Perm.refl _
  | cons a as ih =>
    exact (insertStable_perm le a (sortStable le as)).trans (List.Perm.cons a ih)

theorem sortStable_length {α : Type} (le : α → α → Bool) (l : List α) :
    (sortStable le l).length = l.length :=
  (sortStable_perm le l).length_eq

theorem mem_sortStable {α : Type} {le : α → α → Bool} {l : List α} {a : α} :
    a ∈ sortStable le l ↔ a ∈ l :=
  (sortStable_perm le l).mem_iff

theorem pairwise_insertStable {α : Type} {le : α → α → Bool}
    (trans : ∀ a b c, le a b = true → le b c = true → le a c = true)
    (total : ∀ a b, (le a b || le b a) = true)
    (x : α) {l : List α} (h : l.Pairwise (fun a b => le a b = true)) :
    (insertStable le x l).Pairwise (fun a b => le a b = true) := by
  induction l with
  | nil => simp [insertStable]
  | cons y ys ih =>
    simp only [insertStable]
    rcases List.pairwise_cons.mp h with ⟨hy, hys⟩
    split
    case isTrue hxy =>
      refine List.pairwise_cons.mpr ⟨?_, h⟩
      intro z hz
      rcases List.mem_cons.mp hz with rfl | hz
      · exact hxy
      · exact trans x y z hxy (hy z hz)
    case isFalse hxy =>
      have hyx : le y x = true := by
        have := total x y
        rw [Bool.or_eq_true] at this
        rcases this with h1 | h1
        · exact absurd h1 hxy
        · exact h1
      refine List.pairwise_cons.mpr ⟨?_, ih hys⟩
      intro z hz
      rcases List.mem_cons.mp ((insertStable_perm le x ys).mem_iff.mp hz) with rfl | hz
      · exact hyx
      · exact hy z hz

theorem pairwise_sortStable {α : Type} {le : α → α → Bool}
    (trans : ∀ a b c, le a b = true → le b c = true → le a c = true)
    (total : ∀ a b, (le a b || le b a) = true)
    (l : List α) :
    (sortStable le l).Pairwise (fun a b => le a b = true) := by
  induction l with
  | nil => simp [sortStable]
  | cons a as ih => exact pairwise_insertStable trans total a ih

theorem filter_insertStable_neg {α : Type} (le : α → α → Bool) (p : α → Bool)
    (x : α) (l : List α) (hx : p x = false) :
    (insertStable le x l).filter p = l.filter p := by
  induction l with
  | nil => simp [insertStable, hx]
  | cons y ys ih =>
    simp only [insertStable]
    split
    · simp [List.filter_cons, hx]
    · cases hpy : p y <;> simp [List.filter_cons, hpy, ih]

theorem filter_insertStable_pos {α : Type} (le : α → α → Bool) (p : α → Bool)
    (x : α) (l : List α) (hx : p x = true) (hiff : ∀ b, le x b = p b) :
    (insertStable le x l).filter p = x :: l.filter p := by
  induction l with
  | nil => simp [insertStable, List.filter_cons, hx]
  | cons y ys ih =>
    simp only [insertStable]
    by_cases hxy : le x y = true
    · have hpy : p y = true := by rw [← hiff y]; exact hxy
      rw [if_pos hxy]
      simp [List.filter_cons, hx]
    · have hpy : p y = false := by
        rw [← hiff y]
        exact Bool.not_eq_true _ ▸ (Bool.eq_false_iff.mpr hxy)
      rw [if_neg hxy]
      simp [List.filter_cons, hpy, ih]

/-- Stability of `sortStable`, in the form the claims need: if the elements
satisfying `p` form exactly the class that every `p`-element is `le`-below
(`le a b = p b` whenever `p a`), then sorting does not change their relative
order. -/
theorem filter_sortStable {α : Type} (le : α → α → Bool) (p : α → Bool)
    (l : List α) (hp : ∀ a, p a = true → ∀ b, le a b = p b) :
    (sortStable le l).filter p = l.filter p := by
  induction l with
  | nil => rfl
  | cons a as ih =>
    show (insertStable le a (sortStable le as)).filter p = _
    cases hpa : p a
    · rw [filter_insertStable_neg le p a _ hpa, ih, List.filter_cons, hpa]
      simp
    · rw [filter_insertStable_pos le p a _ hpa (hp a hpa), ih, List.filter_cons, hpa]
      simp

theorem charsLe_total : ∀ as bs, (charsLe as bs || charsLe bs as) = true
  | [], _ => by simp [charsLe]
  | _ :: _, [] => by simp [charsLe]
  | a :: as, b :: bs => by
    simp only [charsLe]
    rcases lt_trichotomy a b with h | h | h
    · simp [h]
    · subst h
      simpa [lt_irrefl] using charsLe_total as bs
    · simp [h, lt_asymm h]

theorem charsLe_trans : ∀ as bs cs, charsLe as bs = true → charsLe bs cs = true →
    charsLe as cs = true
  | [], _, _ => by simp [charsLe]
  | _ :: _, [], _ => by simp [charsLe]
  | _ :: _, _ :: _, [] => by simp [charsLe]
  | a :: as, b :: bs, c :: cs => by
    simp only [charsLe]
    by_cases hab : a < b
    · by_cases hbc : b < c
      · simp [lt_trans hab hbc]
      · by_cases hcb : c < b
        · intro _ h2
          rw [if_neg hbc, if_pos hcb] at h2
          exact absurd h2 (by simp)
        · have : b = c := le_antisymm (le_of_not_lt hcb) (le_of_not_lt hbc)
          subst this
          simp [hab]
    · by_cases hba : b < a
      · intro h1
        rw [if_neg hab, if_pos hba] at h1
        exact absurd h1 (by simp)
      · have hab' : a = b := le_antisymm (le_of_not_lt hba) (le_of_not_lt hab)
        subst hab'
        by_cases hac : a < c
        · simp [hac]
        · by_cases hca : c < a
          · intro _ h2
            rw [if_neg hac, if_pos hca] at h2
            exact absurd h2 (by simp)
          · have : a = c := le_antisymm (le_of_not_lt hca) (le_of_not_lt hac)
            subst this
            simp only [if_neg hac, lt_irrefl, if_neg (lt_irrefl a)]
            exact charsLe_trans as bs cs

theorem charsLe_refl (as : List Char) : charsLe as as = true := by
  have := charsLe_total as as
  simpa using this

theorem strLe_total (a b : String) : (strLe a b || strLe b a) = true :=
  charsLe_total a.data b.data

theorem strLe_trans (a b c : String) (h1 : strLe a b = true) (h2 : strLe b c = true) :
    strLe a c = true :=
  charsLe_trans a.data b.data c.data h1 h2

theorem strLe_refl (a : String) : strLe a a = true := charsLe_refl a.data

/-! ### Arithmetic of the flattening helpers -/

theorem foldl_add_shift {α : Type} (g : α → Nat) (l : List α) (n : Nat) :
    l.foldl (fun t x => t + g x) n = n + l.foldl (fun t x => t + g x) 0 := by
  induction l generalizing n with
  | nil => simp
  | cons a as ih =>
    simp only [List.foldl_cons]
    rw [ih (n + g a), ih (0 + g a)]
    omega

theorem flatten_series_length (sers : List DicomSeries) (acc : List String) :
    (sers.foldl (fun acc2 ser => acc2 ++ ser.images.map (fun im => im.imageId)) acc).length
      = acc.length + sers.foldl (fun t ser => t + ser.images.length) 0 := by
  induction sers generalizing acc with
  | nil => simp
  | cons s ss ih =>
    simp only [List.foldl_cons]
    rw [ih, foldl_add_shift (fun ser => ser.images.length) ss (0 + s.images.length)]
    simp
    omega

theorem flatten_studies_length (studies : List DicomStudy) (acc : List String) :
    (studies.foldl
        (fun acc3 study =>
          study.series.foldl (fun acc2 ser => acc2 ++ ser.images.map (fun im => im.imageId)) acc3)
        acc).length
      = acc.length + getImageCount studies := by
  induction studies generalizing acc with
  | nil => simp [getImageCount]
  | cons st ss ih =>
    simp only [List.foldl_cons]
    rw [ih, flatten_series_length]
    unfold getImageCount
    simp only [List.foldl_cons]
    rw [foldl_add_shift (fun study => study.series.foldl (fun t ser => t + ser.images.length) 0)
      ss (0 + st.series.foldl (fun t ser => t + ser.images.length) 0)]
    omega

/-- C10: `flattenToImageIds` emits exactly one handle per image in the tree —
its length equals `getImageCount`, with no omission or duplication of slots. -/
theorem flatten_length_eq_imageCount (studies : List DicomStudy) :
    (flattenToImageIds studies).length = getImageCount studies := by
  have := flatten_studies_length studies []
  simpa [flattenToImageIds] using this

/-! ### Thumbnail dimension arithmetic -/

theorem roundedScale_eq_floor (s l m : Nat) (hl : 0 < l) :
    roundedScale s l m = ⌊((s : ℚ) / (l : ℚ)) * (m : ℚ) + 1 / 2⌋₊ := by
  have hl' : ((l : ℚ)) ≠ 0 := by
    exact_mod_cast hl.ne'
  have key : ((s : ℚ) / (l : ℚ)) * (m : ℚ) + 1 / 2
      = ((2 * s * m + l : ℕ) : ℚ) / ((2 * l : ℕ) : ℚ) := by
    push_cast
    field_simp
    ring
  rw [roundedScale, key, Nat.floor_div_nat, Nat.floor_natCast]

theorem roundedScale_le (s l m : Nat) (hs : s ≤ l) (hl : 0 < l) :
    roundedScale s l m ≤ m := by
  unfold roundedScale
  have h2l : 0 < 2 * l := by omega
  rw [Nat.lt_succ_iff.symm, Nat.lt_iff_add_one_le, ← Nat.lt_iff_add_one_le]
  rw [Nat.div_lt_iff_lt_mul h2l]
  have : 2 * s * m ≤ 2 * l * m := by
    apply Nat.mul_le_mul_right
    omega
  nlinarith

/-- C9: `generateThumbnail` scale-to-fit: the side matching the source's
longer side equals `maxSize`, the other side is
`Math.round((shorter / longer) * maxSize)` (never exceeding `maxSize`), and
the two documented concrete shapes come out as `128×64` and `64×128`. -/
theorem thumbnail_aspect_preservation (w h m : Nat) (hw : 0 < w) (hh : 0 < h) :
    (h ≤ w → generateThumbnailDims w h m = (m, ⌊((h : ℚ) / (w : ℚ)) * (m : ℚ) + 1 / 2⌋₊)
        ∧ (generateThumbnailDims w h m).2 ≤ m) ∧
    (w ≤ h → generateThumbnailDims w h m = (⌊((w : ℚ) / (h : ℚ)) * (m : ℚ) + 1 / 2⌋₊, m)
        ∧ (generateThumbnailDims w h m).1 ≤ m) ∧
    generateThumbnailDims 200 100 128 = (128, 64) ∧
    generateThumbnailDims 100 200 128 = (64, 128) := by
  have hsq : ∀ u : Nat, 0 < u → roundedScale u u m = m := by
    intro u hu
    unfold roundedScale
    have : 2 * u * m + u = u * (2 * m + 1) := by ring
    rw [this]
    have : 2 * u = u * 2 := by ring
    rw [this, Nat.mul_div_mul_left _ _ hu]
    omega
  have hfloor_self : ∀ u : Nat, 0 < u →
      (⌊((u : ℚ) / (u : ℚ)) * (m : ℚ) + 1 / 2⌋₊ : ℕ) = m := by
    intro u hu
    have hu' : ((u : ℚ)) ≠ 0 := by exact_mod_cast hu.ne'
    rw [div_self hu', one_mul]
    rw [Nat.floor_eq_iff (by positivity)]
    constructor
    · linarith
    · linarith
  refine ⟨?_, ?_, by decide, by decide⟩
  · intro hle
    by_cases hgt : h < w
    · have : w > h := hgt
      unfold generateThumbnailDims
      rw [if_pos this]
      exact ⟨by rw [roundedScale_eq_floor h w m hw], roundedScale_le h w m (le_of_lt hgt) hw⟩
    · have heq : w = h := le_antisymm (by omega) hle
      subst heq
      unfold generateThumbnailDims
      rw [if_neg (by omega)]
      exact ⟨by rw [hsq w hw, hfloor_self w hw], by simp⟩
  · intro hle
    unfold generateThumbnailDims
    by_cases hgt : w > h
    · omega
    · rw [if_neg hgt]
      exact ⟨by rw [roundedScale_eq_floor w h m hh], roundedScale_le w h m hle hh⟩

/-- Witness for C9 at the documented 200×100 and 100×200 sources. -/
theorem thumbnail_aspect_preservation_witness :
    0 < (200 : Nat) ∧ 0 < (100 : Nat) ∧
    generateThumbnailDims 200 100 128 = (128, 64) ∧
    generateThumbnailDims 100 200 128 = (64, 128) :=
  ⟨by decide, by decide,
    (thumbnail_aspect_preservation 200 100 128 (by decide) (by decide)).2.2.1,
    (thumbnail_aspect_preservation 200 100 128 (by decide) (by decide)).2.2.2⟩

/-! ### Preferences -/

/-- C8: a never-written store yields exactly the hardcoded defaults; after
`setPreference('showPhiData', true)` every other field is still at its
default with `showPhiData = true`; a failing storage read yields the pure
defaults (the error paths resolve instead of throwing). -/
theorem preferences_default_merge :
    getPreferences none = DEFAULT_PREFERENCES ∧
    getPreferences (setPreferenceShowPhiData none true)
      = { DEFAULT_PREFERENCES with showPhiData := true } ∧
    (∀ stored : Option StoredPrefs, getPreferencesSafe stored true = DEFAULT_PREFERENCES) :=
  ⟨rfl, by decide, fun _ => rfl⟩

/-! ### Quota errors in `saveStudyToLibrary` -/

/-- C3 (refuted): the error surfaced by `saveStudyToLibrary` is the same
value whether the failing engine write reported `QuotaExceededError` or any
other failure — the rejection handlers discard `request.error` and reject
with a constant generic message, so a quota failure is not distinguishable
by the caller. -/
theorem quota_failure_indistinguishable (db : DB) (files : List SaveFile)
    (meta : StudyMetadataArg) (now n : Nat) :
    saveStudyToLibraryE db files meta now (some (n, IDBFailureKind.quotaExceeded))
      = saveStudyToLibraryE db files meta now (some (n, IDBFailureKind.generic)) := by
  cases n with
  | zero => rfl
  | succ k => rfl

/-! ### Deletion -/

theorem foldl_filter_bne (keys : List String) (l : List StoredImage) :
    keys.foldl (fun imgs k => imgs.filter (fun im => im.imageId != k)) l
      = l.filter (fun im => !(keys.contains im.imageId)) := by
  induction keys generalizing l with
  | nil => simp
  | cons k ks ih =>
    simp only [List.foldl_cons]
    rw [ih, List.filter_filter]
    apply List.filter_congr
    intro im _
    simp only [List.contains_cons, bne]
    cases him : im.imageId == k <;> cases hc : ks.contains im.imageId <;> simp [him, hc]

theorem contains_keys_of_matching (db : DB) (sid : String) (im : StoredImage)
    (him : im ∈ db.images) (hsid : im.studyId = sid) :
    ((imagesByStudyIndex db.images sid).map (fun r => r.imageId)).contains im.imageId = true := by
  have h1 : im ∈ db.images.filter (fun r => r.studyId == sid) := by
    rw [List.mem_filter]
    exact ⟨him, by simp [hsid]⟩
  have h2 : im ∈ imagesByStudyIndex db.images sid := mem_sortStable.mpr h1
  have h3 : im.imageId ∈ (imagesByStudyIndex db.images sid).map (fun r => r.imageId) :=
    List.mem_map_of_mem _ h2
  exact List.elem_eq_true_of_mem h3

theorem deleteStudy_images_spec (db : DB) (sid : String) :
    (deleteStudyFromLibrary db sid).images
      = db.images.filter
          (fun im =>
            !(((imagesByStudyIndex db.images sid).map (fun r => r.imageId)).contains im.imageId)) := by
  unfold deleteStudyFromLibrary
  exact foldl_filter_bne _ _

theorem deleteStudy_no_matching_images (db : DB) (sid : String) :
    (deleteStudyFromLibrary db sid).images.countP (fun im => im.studyId == sid) = 0 := by
  rw [deleteStudy_images_spec]
  rw [List.countP_eq_zero]
  intro im hmem
  rw [List.mem_filter] at hmem
  rcases hmem with ⟨him, hkeep⟩
  intro hsid
  rw [beq_iff_eq] at hsid
  rw [contains_keys_of_matching db sid im him hsid] at hkeep
  simp at hkeep

theorem deleteStudy_studies_spec (db : DB) (sid : String) :
    (deleteStudyFromLibrary db sid).studies = db.studies.filter (fun s => s.id != sid) := rfl

theorem isStudyInLibrary_after_delete (db : DB) (sid : String) :
    isStudyInLibrary (deleteStudyFromLibrary db sid) sid = false := by
  unfold isStudyInLibrary
  rw [deleteStudy_studies_spec]
  have : (db.studies.filter (fun s => s.id != sid)).countP (fun s => s.id == sid) = 0 := by
    rw [List.countP_eq_zero]
    intro s hs
    rw [List.mem_filter] at hs
    simpa using hs.2
  rw [this]
  simp

/-- C7: after `deleteStudyFromLibrary(id)`, `isStudyInLibrary(id)` is false,
no `StoredImage` row with `studyId = id` remains, and a second delete of the
same id is a no-op (in particular it completes without throwing: absent an
engine failure, IndexedDB `delete` succeeds on a missing key and the
per-image error handlers resolve). -/
theorem delete_completeness_idempotence (db : DB) (sid : String) :
    isStudyInLibrary (deleteStudyFromLibrary db sid) sid = false ∧
    (deleteStudyFromLibrary db sid).images.countP (fun im => im.studyId == sid) = 0 ∧
    deleteStudyFromLibrary (deleteStudyFromLibrary db sid) sid = deleteStudyFromLibrary db sid := by
  refine ⟨isStudyInLibrary_after_delete db sid, deleteStudy_no_matching_images db sid, ?_⟩
  have hst : (deleteStudyFromLibrary (deleteStudyFromLibrary db sid) sid).studies
      = (deleteStudyFromLibrary db sid).studies := by
    rw [deleteStudy_studies_spec (deleteStudyFromLibrary db sid) sid]
    rw [List.filter_eq_self]
    intro s hs
    rw [deleteStudy_studies_spec, List.mem_filter] at hs
    exact hs.2
  have hmatch : (deleteStudyFromLibrary db sid).images.filter (fun r => r.studyId == sid) = [] := by
    have := deleteStudy_no_matching_images db sid
    rwa [List.countP_eq_length_filter, List.length_eq_zero] at this
  have hidx : imagesByStudyIndex (deleteStudyFromLibrary db sid).images sid = [] := by
    unfold imagesByStudyIndex
    rw [hmatch]
    rfl
  have him : (deleteStudyFromLibrary (deleteStudyFromLibrary db sid) sid).images
      = (deleteStudyFromLibrary db sid).images := by
    show ((imagesByStudyIndex (deleteStudyFromLibrary db sid).images sid).map
        (fun im => im.imageId)).foldl
        (fun imgs k => imgs.filter (fun im => im.imageId != k))
        (deleteStudyFromLibrary db sid).images
      = (deleteStudyFromLibrary db sid).images
    rw [hidx]
    rfl
  have hrf : (deleteStudyFromLibrary (deleteStudyFromLibrary db sid) sid).recentFiles
      = (deleteStudyFromLibrary db sid).recentFiles := rfl
  have heta : deleteStudyFromLibrary (deleteStudyFromLibrary db sid) sid
      = { studies := (deleteStudyFromLibrary (deleteStudyFromLibrary db sid) sid).studies,
          images := (deleteStudyFromLibrary (deleteStudyFromLibrary db sid) sid).images,
          recentFiles := (deleteStudyFromLibrary (deleteStudyFromLibrary db sid) sid).recentFiles } := rfl
  rw [heta, hst, him, hrf]

/-! ### Upserts -/

theorem putByKey_of_fresh {α : Type} (key : α → String) (v : α) (l : List α)
    (h : ∀ x ∈ l, key x ≠ key v) : putByKey key v l = l ++ [v] := by
  induction l with
  | nil => rfl
  | cons x xs ih =>
    simp only [putByKey]
    rw [if_neg (h x (List.mem_cons_self x xs))]
    rw [ih (fun y hy => h y (List.mem_cons_of_mem x hy))]
    rfl

theorem foldl_putByKey_append {α : Type} (key : α → String) (l new : List α)
    (hnodup : (new.map key).Nodup)
    (hfresh : ∀ v ∈ new, ∀ x ∈ l, key x ≠ key v) :
    new.foldl (fun acc v => putByKey key v acc) l = l ++ new := by
  induction new generalizing l with
  | nil => simp
  | cons v vs ih =>
    simp only [List.foldl_cons]
    rw [putByKey_of_fresh key v l (fun x hx => hfresh v (List.mem_cons_self v vs) x hx)]
    rw [ih (l ++ [v])]
    · simp
    · exact (List.nodup_cons.mp hnodup).2
    · intro w hw x hx
      rcases List.mem_append.mp hx with hx | hx
      · exact hfresh w (List.mem_cons_of_mem v hw) x hx
      · rcases List.mem_singleton.mp hx with rfl
        intro heq
        exact (List.nodup_cons.mp hnodup).1 (heq ▸ List.mem_map_of_mem key hw)

theorem find?_putByKey {α : Type} (key : α → String) (v : α) (l : List α) :
    (putByKey key v l).find? (fun x => key x == key v) = some v := by
  induction l with
  | nil => simp [putByKey, List.find?]
  | cons x xs ih =>
    simp only [putByKey]
    by_cases hx : key x = key v
    · rw [if_pos hx]
      simp [List.find?]
    · rw [if_neg hx]
      rw [List.find?_cons_of_neg]
      · exact ih
      · simp [hx]

theorem putByKey_map_key_sub {α : Type} (key : α → String) (v : α) (l : List α) :
    ∀ y ∈ (putByKey key v l).map key, y ∈ l.map key ∨ y = key v := by
  induction l with
  | nil => simp [putByKey]
  | cons x xs ih =>
    simp only [putByKey]
    by_cases hx : key x = key v
    · rw [if_pos hx]
      intro y hy
      rcases List.mem_cons.mp hy with rfl | hy
      · right; rfl
      · left; exact List.mem_cons_of_mem _ hy
    · rw [if_neg hx]
      intro y hy
      rcases List.mem_cons.mp hy with rfl | hy
      · left; exact List.mem_cons_self _ _
      · rcases ih y hy with h | h
        · left; exact List.mem_cons_of_mem _ h
        · right; exact h

theorem putByKey_map_key_nodup {α : Type} (key : α → String) (v : α) (l : List α)
    (h : (l.map key).Nodup) : ((putByKey key v l).map key).Nodup := by
  induction l with
  | nil => simp [putByKey]
  | cons x xs ih =>
    simp only [putByKey]
    have h' : (key x :: xs.map key).Nodup := by simpa using h
    rcases List.nodup_cons.mp h' with ⟨hx, hxs⟩
    by_cases hkey : key x = key v
    · rw [if_pos hkey]
      simp only [List.map_cons]
      exact List.nodup_cons.mpr ⟨by rw [← hkey]; exact hx, hxs⟩
    · rw [if_neg hkey]
      simp only [List.map_cons]
      refine List.nodup_cons.mpr ⟨?_, ih hxs⟩
      intro hmem
      rcases putByKey_map_key_sub key v xs (key x) hmem with h' | h'
      · exact hx h'
      · exact hkey h'

theorem mem_putByKey {α : Type} (key : α → String) (v : α) (l : List α)
    (hnd : (l.map key).Nodup) :
    ∀ x ∈ putByKey key v l, x = v ∨ (x ∈ l ∧ key x ≠ key v) := by
  induction l with
  | nil => simp [putByKey]
  | cons y ys ih =>
    have hnd' : (key y :: ys.map key).Nodup := by simpa using hnd
    rcases List.nodup_cons.mp hnd' with ⟨hy, hys⟩
    simp only [putByKey]
    by_cases hkey : key y = key v
    · rw [if_pos hkey]
      intro x hx
      rcases List.mem_cons.mp hx with rfl | hx
      · left; rfl
      · right
        refine ⟨List.mem_cons_of_mem y hx, ?_⟩
        intro heq
        rw [← hkey] at heq
        exact hy (heq ▸ List.mem_map_of_mem key hx)
    · rw [if_neg hkey]
      intro x hx
      rcases List.mem_cons.mp hx with rfl | hx
      · right; exact ⟨List.mem_cons_self _ _, hkey⟩
      · rcases ih hys x hx with h | ⟨h1, h2⟩
        · left; exact h
        · right; exact ⟨List.mem_cons_of_mem y h1, h2⟩

/-! ### The effect of a successful save -/

theorem saveOk_spec (db : DB) (files : List SaveFile) (meta : StudyMetadataArg)
    (h : saveOk db files meta = true) :
    ((derivedImages meta files).map (fun im => im.imageId)).Nodup ∧
    (∀ x ∈ db.images, ∀ im ∈ derivedImages meta files, x.imageId ≠ im.imageId) ∧
    (∀ x ∈ db.images, x.studyId ≠ meta.studyInstanceUid) := by
  simp only [saveOk, Bool.and_eq_true] at h
  obtain ⟨⟨h1, h2⟩, h3⟩ := h
  refine ⟨of_decide_eq_true h1, ?_, ?_⟩
  · intro x hx im him heq
    have hall := List.all_eq_true.mp h2 x hx
    rw [Bool.not_eq_true'] at hall
    have hmem : x.imageId ∈ (derivedImages meta files).map (fun im => im.imageId) :=
      heq ▸ List.mem_map_of_mem _ him
    have hcon : ((derivedImages meta files).map (fun im => im.imageId)).contains x.imageId
        = true := List.elem_eq_true_of_mem hmem
    simp [hcon] at hall
    exact hall im him heq.symm
  · intro x hx
    have hall := List.all_eq_true.mp h3 x hx
    simpa using hall

theorem derivedImages_length (meta : StudyMetadataArg) (files : List SaveFile) :
    (derivedImages meta files).length = files.length := by
  simp [derivedImages]

theorem deriveStoredImage_studyId (meta : StudyMetadataArg) (i : Nat) (f : SaveFile) :
    (deriveStoredImage meta i f).studyId = meta.studyInstanceUid := by
  unfold deriveStoredImage
  split <;> rfl

theorem derivedImages_studyId (meta : StudyMetadataArg) (files : List SaveFile) :
    ∀ im ∈ derivedImages meta files, im.studyId = meta.studyInstanceUid := by
  intro im him
  rcases List.mem_map.mp him with ⟨p, _, rfl⟩
  exact deriveStoredImage_studyId meta p.1 p.2

theorem derivedImages_bytes (meta : StudyMetadataArg) (files : List SaveFile) :
    (derivedImages meta files).map (fun im => im.dicomBytes) = files.map (fun f => f.bytes) := by
  unfold derivedImages
  rw [List.map_map]
  have hpt : ((fun im => im.dicomBytes) ∘ fun p : Nat × SaveFile => deriveStoredImage meta p.1 p.2)
      = fun p : Nat × SaveFile => p.2.bytes := by
    funext p
    show (deriveStoredImage meta p.1 p.2).dicomBytes = p.2.bytes
    unfold deriveStoredImage
    split <;> rfl
  rw [hpt]
  have : (fun p : Nat × SaveFile => p.2.bytes)
      = (fun f : SaveFile => f.bytes) ∘ (fun p : Nat × SaveFile => p.2) := rfl
  rw [this, ← List.map_map, List.enum_map_snd]

theorem saveStudy_studies (db : DB) (files : List SaveFile) (meta : StudyMetadataArg)
    (now : Nat) :
    (saveStudyToLibrary db files meta now).1.studies
      = putByKey (fun s => s.id) (saveStudyToLibrary db files meta now).2 db.studies := rfl

theorem saveStudy_images_raw (db : DB) (files : List SaveFile) (meta : StudyMetadataArg)
    (now : Nat) :
    (saveStudyToLibrary db files meta now).1.images
      = (sortStable instLe (derivedImages meta files)).foldl
          (fun imgs im => putByKey (fun s => s.imageId) im imgs) db.images := rfl

theorem saveStudy_images (db : DB) (files : List SaveFile) (meta : StudyMetadataArg)
    (now : Nat) (h : saveOk db files meta = true) :
    (saveStudyToLibrary db files meta now).1.images
      = db.images ++ sortStable instLe (derivedImages meta files) := by
  obtain ⟨hnd, hfresh, _⟩ := saveOk_spec db files meta h
  rw [saveStudy_images_raw]
  apply foldl_putByKey_append
  · exact (((sortStable_perm instLe (derivedImages meta files)).map
      (fun im => im.imageId)).nodup_iff).mpr hnd
  · intro v hv x hx
    exact hfresh x hx v (mem_sortStable.mp hv)

theorem instLe_total (a b : StoredImage) : (instLe a b || instLe b a) = true := by
  simp only [instLe, Bool.or_eq_true, decide_eq_true_eq]
  exact le_total a.instanceNumber b.instanceNumber

theorem instLe_trans (a b c : StoredImage) (h1 : instLe a b = true) (h2 : instLe b c = true) :
    instLe a c = true := by
  simp only [instLe, decide_eq_true_eq] at *
  exact le_trans h1 h2

theorem imagesByStudyIndex_after_save (db : DB) (files : List SaveFile)
    (meta : StudyMetadataArg) (now : Nat) (h : saveOk db files meta = true) :
    imagesByStudyIndex (saveStudyToLibrary db files meta now).1.images meta.studyInstanceUid
      = sortStable (fun a b => strLe a.imageId b.imageId)
          (sortStable instLe (derivedImages meta files)) := by
  obtain ⟨_, _, hnostudy⟩ := saveOk_spec db files meta h
  unfold imagesByStudyIndex
  rw [saveStudy_images db files meta now h, List.filter_append]
  have h1 : db.images.filter (fun im => im.studyId == meta.studyInstanceUid) = [] := by
    rw [List.filter_eq_nil_iff]
    intro im him
    simpa using hnostudy im him
  have h2 : (sortStable instLe (derivedImages meta files)).filter
      (fun im => im.studyId == meta.studyInstanceUid)
      = sortStable instLe (derivedImages meta files) := by
    rw [List.filter_eq_self]
    intro im him
    simpa using derivedImages_studyId meta files im (mem_sortStable.mp him)
  rw [h1, h2, List.nil_append]

theorem find?_after_save (db : DB) (files : List SaveFile) (meta : StudyMetadataArg)
    (now : Nat) :
    (saveStudyToLibrary db files meta now).1.studies.find?
        (fun s => s.id == meta.studyInstanceUid)
      = some (saveStudyToLibrary db files meta now).2 := by
  rw [saveStudy_studies]
  exact find?_putByKey (fun s => s.id) (saveStudyToLibrary db files meta now).2 db.studies

theorem loadStudyFromLibrary_after_save (db : DB) (files : List SaveFile)
    (meta : StudyMetadataArg) (now now2 : Nat) (h : saveOk db files meta = true) :
    (loadStudyFromLibrary (saveStudyToLibrary db files meta now).1
        meta.studyInstanceUid now2).1
      = some ((saveStudyToLibrary db files meta now).2,
          sortStable instLe (sortStable (fun a b => strLe a.imageId b.imageId)
            (sortStable instLe (derivedImages meta files)))) := by
  unfold loadStudyFromLibrary
  rw [find?_after_save db files meta now,
    imagesByStudyIndex_after_save db files meta now h]

/-- C2 (amended with the precondition that the derived image ids are fresh and
pairwise distinct — see the counterexample): a save followed by a load of the
same study id returns the saved study record and exactly one image per file,
ordered with `instanceNumber` ascending; the loaded records are a permutation
of the records derived from the files, whose payloads are byte-for-byte the
original files' bytes. -/
theorem save_load_roundtrip (db : DB) (files : List SaveFile) (meta : StudyMetadataArg)
    (now now2 : Nat) (h : saveOk db files meta = true) :
    loadedStudy (loadStudyFromLibrary (saveStudyToLibrary db files meta now).1
        meta.studyInstanceUid now2).1 = some (saveStudyToLibrary db files meta now).2 ∧
    (loadedImages (loadStudyFromLibrary (saveStudyToLibrary db files meta now).1
        meta.studyInstanceUid now2).1).length = files.length ∧
    List.Perm (loadedImages (loadStudyFromLibrary (saveStudyToLibrary db files meta now).1
        meta.studyInstanceUid now2).1) (derivedImages meta files) ∧
    (loadedImages (loadStudyFromLibrary (saveStudyToLibrary db files meta now).1
        meta.studyInstanceUid now2).1).Pairwise
      (fun a b => a.instanceNumber ≤ b.instanceNumber) ∧
    (derivedImages meta files).map (fun im => im.dicomBytes)
      = files.map (fun f => f.bytes) := by
  rw [loadStudyFromLibrary_after_save db files meta now now2 h]
  have hperm : List.Perm
      (sortStable instLe (sortStable (fun a b => strLe a.imageId b.imageId)
        (sortStable instLe (derivedImages meta files))))
      (derivedImages meta files) :=
    ((sortStable_perm instLe _).trans
      (sortStable_perm (fun a b => strLe a.imageId b.imageId) _)).trans
      (sortStable_perm instLe _)
  refine ⟨rfl, ?_, hperm, ?_, derivedImages_bytes meta files⟩
  · rw [show loadedImages (some ((saveStudyToLibrary db files meta now).2,
        sortStable instLe (sortStable (fun a b => strLe a.imageId b.imageId)
          (sortStable instLe (derivedImages meta files)))))
        = sortStable instLe (sortStable (fun a b => strLe a.imageId b.imageId)
          (sortStable instLe (derivedImages meta files))) from rfl]
    rw [hperm.length_eq]
    exact derivedImages_length meta files
  · have hp := pairwise_sortStable instLe_trans instLe_total
      (sortStable (fun a b => strLe a.imageId b.imageId)
        (sortStable instLe (derivedImages meta files)))
    exact hp.imp (fun hab => by simpa [instLe] using hab)

/-- Counterexample to C2 as universally stated: two files whose metadata
carries the same SOP instance UID derive the same `imageId`, so the second
`put` overwrites the first and the load returns one image for two files. -/
theorem roundtrip_duplicate_imageId_counterexample :
    (loadedImages (loadStudyFromLibrary
        (saveStudyToLibrary emptyDB [dupFileA, dupFileB] sampleMeta 0).1
        sampleMeta.studyInstanceUid 1).1).length
      ≠ ([dupFileA, dupFileB] : List SaveFile).length := by decide

/-- Witness for C2 at the documented scenario: three files with instance
numbers `[3, 1, 2]` load in the order of original file indices 1, 2, 0
(payloads `[11], [12], [10]`). -/
theorem save_load_roundtrip_witness :
    saveOk emptyDB [rtFile0, rtFile1, rtFile2] sampleMeta = true ∧
    ((loadedImages (loadStudyFromLibrary
        (saveStudyToLibrary emptyDB [rtFile0, rtFile1, rtFile2] sampleMeta 0).1
        sampleMeta.studyInstanceUid 1).1).map (fun im => im.dicomBytes)
      = [[11], [12], [10]]) ∧
    (loadedImages (loadStudyFromLibrary
        (saveStudyToLibrary emptyDB [rtFile0, rtFile1, rtFile2] sampleMeta 0).1
        sampleMeta.studyInstanceUid 1).1).length
      = ([rtFile0, rtFile1, rtFile2] : List SaveFile).length :=
  ⟨by decide, by decide,
    (save_load_roundtrip emptyDB [rtFile0, rtFile1, rtFile2] sampleMeta 0 1 (by decide)).2.1⟩

/-! ### Referential integrity across save/delete sequences -/

theorem countP_filter_of_imp {α : Type} (p q : α → Bool) (l : List α)
    (himp : ∀ a ∈ l, p a = true → q a = true) :
    (l.filter q).countP p = l.countP p := by
  induction l with
  | nil => rfl
  | cons a as ih =>
    have ih' := ih (fun x hx => himp x (List.mem_cons_of_mem a hx))
    rw [List.filter_cons]
    cases hq : q a
    · have hp : p a = false := by
        cases hp : p a
        · rfl
        · rw [himp a (List.mem_cons_self a as) hp] at hq
          exact absurd hq (by simp)
      rw [if_neg (by simp)]
      rw [List.countP_cons, hp, ih']
      simp
    · rw [if_pos rfl]
      rw [List.countP_cons, List.countP_cons, ih']

theorem GoodDB_save (db : DB) (files : List SaveFile) (meta : StudyMetadataArg)
    (now : Nat) (hg : GoodDB db) (h : saveOk db files meta = true) :
    GoodDB (saveStudyToLibrary db files meta now).1 := by
  obtain ⟨hgs, hgi, hginv⟩ := hg
  obtain ⟨hnd, hfresh, hnostudy⟩ := saveOk_spec db files meta h
  have hid : (saveStudyToLibrary db files meta now).2.id = meta.studyInstanceUid := rfl
  have hcount : (saveStudyToLibrary db files meta now).2.imageCount = files.length := rfl
  have hsortnd : ((sortStable instLe (derivedImages meta files)).map
      (fun im => im.imageId)).Nodup :=
    (((sortStable_perm instLe (derivedImages meta files)).map
      (fun im => im.imageId)).nodup_iff).mpr hnd
  refine ⟨?_, ?_, ?_⟩
  · rw [saveStudy_studies]
    exact putByKey_map_key_nodup (fun s => s.id) _ db.studies hgs
  · rw [saveStudy_images db files meta now h, List.map_append]
    rw [List.nodup_append]
    refine ⟨hgi, hsortnd, ?_⟩
    intro a ha hb
    rcases List.mem_map.mp ha with ⟨x, hx, rfl⟩
    rcases List.mem_map.mp hb with ⟨im, him, heq⟩
    exact hfresh x hx im (mem_sortStable.mp him) heq.symm
  · intro s hs
    rw [saveStudy_studies] at hs
    rw [saveStudy_images db files meta now h, List.countP_append]
    have hstudy0 : db.images.countP
        (fun im => im.studyId == meta.studyInstanceUid) = 0 := by
      rw [List.countP_eq_zero]
      intro im him
      simpa using hnostudy im him
    rcases mem_putByKey (fun s => s.id) _ db.studies hgs s hs with rfl | ⟨hmem, hne⟩
    · rw [hid, hstudy0, Nat.zero_add, hcount]
      have hall : ∀ im ∈ sortStable instLe (derivedImages meta files),
          (im.studyId == meta.studyInstanceUid) = true := by
        intro im him
        simpa using derivedImages_studyId meta files im (mem_sortStable.mp him)
      rw [List.countP_eq_length.mpr hall, sortStable_length, derivedImages_length]
    · have hzero : (sortStable instLe (derivedImages meta files)).countP
          (fun im => im.studyId == s.id) = 0 := by
        rw [List.countP_eq_zero]
        intro im him
        rw [derivedImages_studyId meta files im (mem_sortStable.mp him)]
        rw [hid] at hne
        simpa using fun heq => hne heq.symm
      rw [hzero, Nat.add_zero]
      exact hginv s hmem

theorem GoodDB_delete (db : DB) (sid : String) (hg : GoodDB db) :
    GoodDB (deleteStudyFromLibrary db sid) := by
  obtain ⟨hgs, hgi, hginv⟩ := hg
  refine ⟨?_, ?_, ?_⟩
  · rw [deleteStudy_studies_spec]
    exact ((List.filter_sublist db.studies).map (fun s => s.id)).nodup hgs
  · rw [deleteStudy_images_spec]
    exact ((List.filter_sublist db.images).map (fun im => im.imageId)).nodup hgi
  · intro s hs
    rw [deleteStudy_studies_spec, List.mem_filter] at hs
    obtain ⟨hmem, hsid⟩ := hs
    have hneq : s.id ≠ sid := by simpa using hsid
    rw [deleteStudy_images_spec]
    rw [countP_filter_of_imp]
    · exact hginv s hmem
    · intro im him hp
      rw [beq_iff_eq] at hp
      cases hkeep : (((imagesByStudyIndex db.images sid).map
          (fun r => r.imageId)).contains im.imageId)
      · rfl
      · exfalso
        have hmemk := List.mem_of_elem_eq_true hkeep
        rcases List.mem_map.mp hmemk with ⟨im', him', heq⟩
        have him'' : im' ∈ db.images.filter (fun r => r.studyId == sid) :=
          mem_sortStable.mp him'
        rw [List.mem_filter] at him''
        obtain ⟨him'2, hsid'⟩ := him''
        have : im' = im :=
          List.inj_on_of_nodup_map hgi him'2 him heq
        rw [this] at hsid'
        rw [hp] at hsid'
        exact hneq (by simpa using hsid'.symm)

theorem GoodDB_execOps : ∀ (ops : List LibOp) (db : DB), GoodDB db →
    validOps db ops = true → GoodDB (execOps db ops) := by
  intro ops
  induction ops with
  | nil => intro db hg _; exact hg
  | cons op rest ih =>
    intro db hg hv
    simp only [validOps, Bool.and_eq_true] at hv
    obtain ⟨hop, hrest⟩ := hv
    show GoodDB (execOps (execOp db op) rest)
    refine ih (execOp db op) ?_ hrest
    cases op with
    | save files meta now => exact GoodDB_save db files meta now hg hop
    | del id => exact GoodDB_delete db id hg

/-- Counterexample to C1 as universally stated: re-saving the same study id
with a different file list leaves the first save's image rows in place, so
the row count (2) no longer matches the re-saved study's `imageCount` (1). -/
theorem save_resave_imageCount_counterexample :
    ¬ imageCountInvariant
        (execOps emptyDB
          [LibOp.save [sampleFile1] sampleMeta 0,
           LibOp.save [sampleFile2] sampleMeta 1]) := by decide

/-- C1 (amended with the precondition that every save derives pairwise
distinct image ids that are fresh for the store and targets a study id with
no pre-existing image rows — see the counterexample): after any such
sequence of saves and deletes, every stored study's `imageCount` equals the
number of image rows carrying its `studyId`. -/
theorem imageCount_invariant_of_validOps (ops : List LibOp)
    (hv : validOps emptyDB ops = true) :
    imageCountInvariant (execOps emptyDB ops) := by
  refine (GoodDB_execOps ops emptyDB ?_ hv).2.2
  refine ⟨List.nodup_nil, List.nodup_nil, ?_⟩
  intro s hs
  simp [emptyDB] at hs

/-- Witness for C1: a save of two files, a delete, and a re-save of one file
under the same study id, each step satisfying the precondition. -/
theorem imageCount_invariant_of_validOps_witness :
    validOps emptyDB
        [LibOp.save [sampleFile1, sampleFile2] sampleMeta 0,
         LibOp.del "study-1",
         LibOp.save [sampleFile2] sampleMeta 5] = true ∧
    imageCountInvariant
      (execOps emptyDB
        [LibOp.save [sampleFile1, sampleFile2] sampleMeta 0,
         LibOp.del "study-1",
         LibOp.save [sampleFile2] sampleMeta 5]) :=
  ⟨by decide, imageCount_invariant_of_validOps _ (by decide)⟩

/-! ### Get-or-create updates -/

theorem updateKeyed_map_key_sub {α : Type} (key : α → String) (uid : String)
    (fresh : α) (upd : α → α) (hupd : ∀ x, key (upd x) = key x)
    (hfresh : key fresh = uid) (l : List α) :
    ∀ y ∈ (updateKeyed key uid fresh upd l).map key, y ∈ l.map key ∨ y = uid := by
  induction l with
  | nil =>
    intro y hy
    simp only [updateKeyed, List.map_cons, List.map_nil] at hy
    right
    rcases List.mem_singleton.mp hy with rfl
    rw [hupd, hfresh]
  | cons x xs ih =>
    intro y hy
    simp only [updateKeyed] at hy
    by_cases hkey : key x = uid
    · rw [if_pos hkey] at hy
      simp only [List.map_cons] at hy
      rcases List.mem_cons.mp hy with rfl | hy
      · left; rw [hupd]; exact List.mem_cons_self _ _
      · left; exact List.mem_cons_of_mem _ hy
    · rw [if_neg hkey] at hy
      simp only [List.map_cons] at hy
      rcases List.mem_cons.mp hy with rfl | hy
      · left; exact List.mem_cons_self _ _
      · rcases ih y hy with h | h
        · left; exact List.mem_cons_of_mem _ h
        · right; exact h

theorem updateKeyed_map_key_nodup {α : Type} (key : α → String) (uid : String)
    (fresh : α) (upd : α → α) (hupd : ∀ x, key (upd x) = key x)
    (hfresh : key fresh = uid) (l : List α) (h : (l.map key).Nodup) :
    ((updateKeyed key uid fresh upd l).map key).Nodup := by
  induction l with
  | nil => simp [updateKeyed]
  | cons x xs ih =>
    have h' : (key x :: xs.map key).Nodup := by simpa using h
    rcases List.nodup_cons.mp h' with ⟨hx, hxs⟩
    simp only [updateKeyed]
    by_cases hkey : key x = uid
    · rw [if_pos hkey]
      simp only [List.map_cons]
      exact List.nodup_cons.mpr ⟨by rw [hupd]; exact hx, hxs⟩
    · rw [if_neg hkey]
      simp only [List.map_cons]
      refine List.nodup_cons.mpr ⟨?_, ih hxs⟩
      intro hmem
      rcases updateKeyed_map_key_sub key uid fresh upd hupd hfresh xs (key x) hmem with h1 | h1
      · exact hx h1
      · exact hkey h1

theorem updateKeyed_any_new {α : Type} (key : α → String) (uid : String)
    (fresh : α) (upd : α → α) (q : α → Bool) (hupd : ∀ x, key (upd x) = key x)
    (hfresh : key fresh = uid) (hq : ∀ z, q (upd z) = true) (l : List α) :
    (updateKeyed key uid fresh upd l).any (fun x => (key x == uid) && q x) = true := by
  induction l with
  | nil => simp [updateKeyed, hupd, hfresh, hq]
  | cons x xs ih =>
    simp only [updateKeyed]
    by_cases hkey : key x = uid
    · rw [if_pos hkey]
      simp [hupd, hkey, hq]
    · rw [if_neg hkey]
      simp only [List.any_cons, Bool.or_eq_true]
      right
      exact ih

theorem updateKeyed_any_mono {α : Type} (key : α → String) (uid : String)
    (fresh : α) (upd : α → α) (q : α → Bool)
    (hq : ∀ z, q z = true → q (upd z) = true) (l : List α) (h : l.any q = true) :
    (updateKeyed key uid fresh upd l).any q = true := by
  induction l with
  | nil => simp at h
  | cons x xs ih =>
    simp only [List.any_cons, Bool.or_eq_true] at h
    simp only [updateKeyed]
    by_cases hkey : key x = uid
    · rw [if_pos hkey]
      simp only [List.any_cons, Bool.or_eq_true]
      rcases h with h | h
      · left; exact hq x h
      · right; exact h
    · rw [if_neg hkey]
      simp only [List.any_cons, Bool.or_eq_true]
      rcases h with h | h
      · left; exact h
      · right; exact ih h

theorem mem_updateKeyed {α : Type} (key : α → String) (uid : String)
    (fresh : α) (upd : α → α) (l : List α) :
    ∀ x ∈ updateKeyed key uid fresh upd l,
      x ∈ l ∨ ∃ z, (z ∈ l ∨ z = fresh) ∧ x = upd z := by
  induction l with
  | nil =>
    intro x hx
    rcases List.mem_singleton.mp hx with rfl
    exact Or.inr ⟨fresh, Or.inr rfl, rfl⟩
  | cons y ys ih =>
    intro x hx
    simp only [updateKeyed] at hx
    by_cases hkey : key y = uid
    · rw [if_pos hkey] at hx
      rcases List.mem_cons.mp hx with rfl | hx
      · exact Or.inr ⟨y, Or.inl (List.mem_cons_self _ _), rfl⟩
      · exact Or.inl (List.mem_cons_of_mem _ hx)
    · rw [if_neg hkey] at hx
      rcases List.mem_cons.mp hx with rfl | hx
      · exact Or.inl (List.mem_cons_self _ _)
      · rcases ih x hx with h | ⟨z, hz, rfl⟩
        · exact Or.inl (List.mem_cons_of_mem _ h)
        · refine Or.inr ⟨z, ?_, rfl⟩
          rcases hz with hz | hz
          · exact Or.inl (List.mem_cons_of_mem _ hz)
          · exact Or.inr hz

/-! ### Where `processHandle` puts an image -/

theorem studyHasImageIn_update (st : DicomStudy) (serUid : String)
    (freshSer : DicomSeries) (img : DicomImage)
    (hfresh : freshSer.seriesInstanceUid = serUid) :
    studyHasImageIn
      { st with series :=
          (updateKeyed (fun ser => ser.seriesInstanceUid) serUid freshSer
            (pushImage img) st.series) } serUid img.imageId = true := by
  show (updateKeyed (fun ser => ser.seriesInstanceUid) serUid freshSer
      (pushImage img) st.series).any
      (fun ser => ser.seriesInstanceUid == serUid && seriesHasImage ser img.imageId) = true
  apply updateKeyed_any_new
  · intro x; rfl
  · exact hfresh
  · intro z
    simp [seriesHasImage, pushImage]

theorem studyHasImageIn_update_mono (st : DicomStudy) (serUid k2 i : String)
    (freshSer : DicomSeries) (img : DicomImage)
    (h : studyHasImageIn st k2 i = true) :
    studyHasImageIn
      { st with series :=
          (updateKeyed (fun ser => ser.seriesInstanceUid) serUid freshSer
            (pushImage img) st.series) } k2 i = true := by
  show (updateKeyed (fun ser => ser.seriesInstanceUid) serUid freshSer
      (pushImage img) st.series).any
      (fun ser => ser.seriesInstanceUid == k2 && seriesHasImage ser i) = true
  apply updateKeyed_any_mono
  · intro z hz
    rw [Bool.and_eq_true] at hz ⊢
    refine ⟨hz.1, ?_⟩
    rcases List.any_eq_true.mp hz.2 with ⟨im, him, hid⟩
    exact List.any_eq_true.mpr ⟨im, List.mem_append_left _ him, hid⟩
  · exact h

theorem processHandle_places (studies : List DicomStudy) (h : ImageHandle) :
    studiesHaveImage (processHandle studies h) (studyKeyOf h) (seriesKeyOf h)
      h.imageId = true := by
  unfold processHandle studiesHaveImage studyKeyOf seriesKeyOf
  cases hmt : h.metaThrows
  · simp only [hmt, Bool.false_eq_true, if_false]
    apply updateKeyed_any_new
    · intro x; rfl
    · rfl
    · intro z
      exact studyHasImageIn_update z _ _ ⟨h.imageId, h.instanceNumber⟩ rfl
  · simp only [hmt, if_true]
    unfold addToUnknown
    apply updateKeyed_any_new
    · intro x; rfl
    · rfl
    · intro z
      exact studyHasImageIn_update z _ _ ⟨h.imageId, none⟩ rfl

theorem processHandle_mono (studies : List DicomStudy) (h : ImageHandle)
    (k1 k2 i : String) (hmem : studiesHaveImage studies k1 k2 i = true) :
    studiesHaveImage (processHandle studies h) k1 k2 i = true := by
  unfold processHandle
  unfold studiesHaveImage at hmem ⊢
  cases hmt : h.metaThrows
  · simp only [hmt, Bool.false_eq_true, if_false]
    apply updateKeyed_any_mono
    · intro z hz
      rw [Bool.and_eq_true] at hz ⊢
      exact ⟨hz.1, studyHasImageIn_update_mono z _ k2 i _ _ hz.2⟩
    · exact hmem
  · simp only [hmt, if_true]
    unfold addToUnknown
    apply updateKeyed_any_mono
    · intro z hz
      rw [Bool.and_eq_true] at hz ⊢
      exact ⟨hz.1, studyHasImageIn_update_mono z _ k2 i _ _ hz.2⟩
    · exact hmem

theorem foldl_processHandle_mono (handles : List ImageHandle)
    (init : List DicomStudy) (k1 k2 i : String)
    (hmem : studiesHaveImage init k1 k2 i = true) :
    studiesHaveImage (handles.foldl processHandle init) k1 k2 i = true := by
  induction handles generalizing init with
  | nil => exact hmem
  | cons hd tl ih =>
    rw [List.foldl_cons]
    exact ih (processHandle init hd) (processHandle_mono init hd k1 k2 i hmem)

theorem groupUnsorted_places (handles : List ImageHandle) (h : ImageHandle)
    (hh : h ∈ handles) :
    studiesHaveImage (groupUnsorted handles) (studyKeyOf h) (seriesKeyOf h)
      h.imageId = true := by
  unfold groupUnsorted
  suffices haux : ∀ (hs : List ImageHandle) (init : List DicomStudy), h ∈ hs →
      studiesHaveImage (hs.foldl processHandle init) (studyKeyOf h) (seriesKeyOf h)
        h.imageId = true from haux handles [] hh
  intro hs
  induction hs with
  | nil => intro init hmem; simp at hmem
  | cons hd tl ih =>
    intro init hmem
    rw [List.foldl_cons]
    rcases List.mem_cons.mp hmem with rfl | hmem
    · exact foldl_processHandle_mono tl (processHandle init h) _ _ _
        (processHandle_places init h)
    · exact ih (processHandle init hd) hmem

/-! ### Transport through the final sorting pass -/

theorem studyHasImageIn_sortContents (st : DicomStudy) (k2 i : String)
    (h : studyHasImageIn st k2 i = true) :
    studyHasImageIn (sortStudyContents st) k2 i = true := by
  unfold studyHasImageIn sortStudyContents at *
  rcases List.any_eq_true.mp h with ⟨ser, hser, hq⟩
  rw [Bool.and_eq_true] at hq
  apply List.any_eq_true.mpr
  refine ⟨{ ser with images := sortStable imageLe ser.images }, ?_, ?_⟩
  · exact List.mem_map_of_mem _ (mem_sortStable.mpr hser)
  · rw [Bool.and_eq_true]
    refine ⟨hq.1, ?_⟩
    rcases List.any_eq_true.mp hq.2 with ⟨im, him, hid⟩
    exact List.any_eq_true.mpr ⟨im, mem_sortStable.mpr him, hid⟩

theorem studiesHaveImage_final (handles : List ImageHandle) (k1 k2 i : String)
    (h : studiesHaveImage (groupUnsorted handles) k1 k2 i = true) :
    studiesHaveImage (groupDicomFiles handles).1 k1 k2 i = true := by
  show (sortStable studyLe ((groupUnsorted handles).map sortStudyContents)).any
      (fun st => st.studyInstanceUid == k1 && studyHasImageIn st k2 i) = true
  rcases List.any_eq_true.mp h with ⟨st, hst, hq⟩
  rw [Bool.and_eq_true] at hq
  apply List.any_eq_true.mpr
  refine ⟨sortStudyContents st, mem_sortStable.mpr (List.mem_map_of_mem _ hst), ?_⟩
  rw [Bool.and_eq_true]
  exact ⟨hq.1, studyHasImageIn_sortContents st k2 i hq.2⟩

theorem studiesHaveImage_weaken (res : List DicomStudy) (k1 k2 i : String)
    (h : studiesHaveImage res k1 k2 i = true) :
    studiesHaveImageInStudy res k1 i = true := by
  rcases List.any_eq_true.mp h with ⟨st, hst, hq⟩
  rw [Bool.and_eq_true] at hq
  apply List.any_eq_true.mpr
  refine ⟨st, hst, ?_⟩
  rw [Bool.and_eq_true]
  refine ⟨hq.1, ?_⟩
  rcases List.any_eq_true.mp hq.2 with ⟨ser, hser, hq2⟩
  rw [Bool.and_eq_true] at hq2
  exact List.any_eq_true.mpr ⟨ser, hser, hq2.2⟩

/-! ### Key uniqueness of the grouped result -/

theorem processHandle_keysNodup (studies : List DicomStudy) (h : ImageHandle)
    (hk : StudyKeysNodup studies) : StudyKeysNodup (processHandle studies h) := by
  obtain ⟨hks, hsers⟩ := hk
  have hseries : ∀ (z : DicomStudy) (serUid : String) (freshSer : DicomSeries)
      (img : DicomImage), freshSer.seriesInstanceUid = serUid →
      (z.series.map (fun s => s.seriesInstanceUid)).Nodup →
      (((updateKeyed (fun ser => ser.seriesInstanceUid) serUid freshSer
          (pushImage img) z.series)).map (fun s => s.seriesInstanceUid)).Nodup := by
    intro z serUid freshSer img hfresh hnd
    refine updateKeyed_map_key_nodup _ _ _ _ ?_ ?_ _ hnd
    · intro x; rfl
    · exact hfresh
  unfold processHandle
  cases hmt : h.metaThrows
  · simp only [Bool.false_eq_true, if_false]
    constructor
    · refine updateKeyed_map_key_nodup _ _ _ _ ?_ ?_ _ hks
      · intro x; rfl
      · rfl
    · intro st hst
      rcases mem_updateKeyed _ _ _ _ studies st hst with hmem | ⟨z, hz, rfl⟩
      · exact hsers st hmem
      · rcases hz with hz | rfl
        · exact hseries z _ _ _ rfl (hsers z hz)
        · exact hseries _ _ _ _ rfl (by simp [freshStudyOf])
  · simp only [if_true]
    unfold addToUnknown
    constructor
    · refine updateKeyed_map_key_nodup _ _ _ _ ?_ ?_ _ hks
      · intro x; rfl
      · rfl
    · intro st hst
      rcases mem_updateKeyed _ _ _ _ studies st hst with hmem | ⟨z, hz, rfl⟩
      · exact hsers st hmem
      · rcases hz with hz | rfl
        · exact hseries z _ _ _ rfl (hsers z hz)
        · exact hseries _ _ _ _ rfl (by simp [unknownStudyFresh])

theorem groupUnsorted_keysNodup (handles : List ImageHandle) :
    StudyKeysNodup (groupUnsorted handles) := by
  unfold groupUnsorted
  suffices haux : ∀ (hs : List ImageHandle) (init : List DicomStudy),
      StudyKeysNodup init → StudyKeysNodup (hs.foldl processHandle init) from
    haux handles [] ⟨List.nodup_nil, by intro st hst; simp at hst⟩
  intro hs
  induction hs with
  | nil => intro init hk; exact hk
  | cons hd tl ih =>
    intro init hk
    rw [List.foldl_cons]
    exact ih (processHandle init hd) (processHandle_keysNodup init hd hk)

theorem countP_key_le_one {α : Type} (key : α → String) (l : List α)
    (h : (l.map key).Nodup) (u : String) :
    l.countP (fun x => key x == u) ≤ 1 := by
  induction l with
  | nil => simp
  | cons x xs ih =>
    have h' : (key x :: xs.map key).Nodup := by simpa using h
    rcases List.nodup_cons.mp h' with ⟨hx, hxs⟩
    rw [List.countP_cons]
    by_cases hk : key x = u
    · have hzero : xs.countP (fun y => key y == u) = 0 := by
        rw [List.countP_eq_zero]
        intro y hy hyu
        rw [beq_iff_eq] at hyu
        exact hx (by rw [← hk] at hyu; exact hyu ▸ List.mem_map_of_mem key hy)
      rw [hzero]
      simp [hk]
    · have : (key x == u) = false := by simpa using hk
      rw [this]
      simpa using ih hxs

theorem studyKeyOf_of_lacks (h : ImageHandle) (hl : lacksStudyUID h = true) :
    studyKeyOf h = "unknown-study" := by
  unfold lacksStudyUID at hl
  unfold studyKeyOf
  cases hmt : h.metaThrows
  · rw [hmt] at hl
    simp only [Bool.false_or] at hl
    simp only [Bool.false_eq_true, if_false]
    rw [Option.isNone_iff_eq_none.mp hl]
    rfl
  · simp

theorem seriesKeyOf_of_lacks (h : ImageHandle) (hl : lacksSeriesUID h = true) :
    seriesKeyOf h = "unknown-series" := by
  unfold lacksSeriesUID at hl
  unfold seriesKeyOf
  cases hmt : h.metaThrows
  · rw [hmt] at hl
    simp only [Bool.false_or] at hl
    simp only [Bool.false_eq_true, if_false]
    rw [Option.isNone_iff_eq_none.mp hl]
    rfl
  · simp

/-- C4: every image lacking a study UID lands inside the single synthetic
study keyed `"unknown-study"`, every image lacking a series UID lands inside
the series keyed `"unknown-series"` of its study, and the result never holds
more than one study keyed `"unknown-study"` nor more than one series keyed
`"unknown-series"` within any study. -/
theorem unknown_bucket_coalescing (handles : List ImageHandle) :
    (groupDicomFiles handles).1.countP
        (fun st => st.studyInstanceUid == "unknown-study") ≤ 1 ∧
    ((groupDicomFiles handles).1.all (fun st =>
        decide (st.series.countP
          (fun ser => ser.seriesInstanceUid == "unknown-series") ≤ 1))) = true ∧
    (handles.all (fun h => !(lacksStudyUID h) ||
        studiesHaveImageInStudy (groupDicomFiles handles).1 "unknown-study" h.imageId))
      = true ∧
    (handles.all (fun h => !(lacksSeriesUID h) ||
        studiesHaveImage (groupDicomFiles handles).1 (studyKeyOf h) "unknown-series"
          h.imageId)) = true := by
  obtain ⟨hknd, hsnd⟩ := groupUnsorted_keysNodup handles
  refine ⟨?_, ?_, ?_, ?_⟩
  · have hA : (groupDicomFiles handles).1.countP
        (fun st => st.studyInstanceUid == "unknown-study")
        = (groupUnsorted handles).countP
            (fun st => st.studyInstanceUid == "unknown-study") := by
      show (sortStable studyLe ((groupUnsorted handles).map sortStudyContents)).countP _ = _
      rw [(sortStable_perm studyLe _).countP_eq, List.countP_map]
      rfl
    rw [hA]
    exact countP_key_le_one (fun st : DicomStudy => st.studyInstanceUid) _ hknd "unknown-study"
  · rw [List.all_eq_true]
    intro st hst
    have hst' := mem_sortStable.mp hst
    rcases List.mem_map.mp hst' with ⟨st0, hst0, rfl⟩
    rw [decide_eq_true_eq]
    have hB : (sortStudyContents st0).series.countP
        (fun ser => ser.seriesInstanceUid == "unknown-series")
        = st0.series.countP (fun ser => ser.seriesInstanceUid == "unknown-series") := by
      show ((sortStable seriesLe st0.series).map _).countP _ = _
      rw [List.countP_map, (sortStable_perm seriesLe _).countP_eq]
      rfl
    rw [hB]
    exact countP_key_le_one (fun ser : DicomSeries => ser.seriesInstanceUid) _ (hsnd st0 hst0)
      "unknown-series"
  · rw [List.all_eq_true]
    intro h hh
    cases hl : lacksStudyUID h
    · simp
    · have hplace := studiesHaveImage_final handles _ _ _
        (groupUnsorted_places handles h hh)
      rw [studyKeyOf_of_lacks h hl] at hplace
      have hw := studiesHaveImage_weaken _ _ _ _ hplace
      simp [hw]
  · rw [List.all_eq_true]
    intro h hh
    cases hl : lacksSeriesUID h
    · simp
    · have hplace := studiesHaveImage_final handles _ _ _
        (groupUnsorted_places handles h hh)
      rw [seriesKeyOf_of_lacks h hl] at hplace
      simp [hplace]

/-- C6: a handle whose metadata fetch throws does not abort grouping — it is
routed to the `"unknown-study"` / `"unknown-series"` bucket, a warning
carrying its id is recorded, and every other handle in the input is still
grouped under its own study and series keys. -/
theorem grouping_fetch_failure_isolated (pre post : List ImageHandle)
    (bad : ImageHandle) (hbad : bad.metaThrows = true) :
    studiesHaveImage (groupDicomFiles (pre ++ bad :: post)).1
        "unknown-study" "unknown-series" bad.imageId = true ∧
    bad.imageId ∈ (groupDicomFiles (pre ++ bad :: post)).2 ∧
    ((pre ++ post).all (fun h =>
        studiesHaveImage (groupDicomFiles (pre ++ bad :: post)).1
          (studyKeyOf h) (seriesKeyOf h) h.imageId)) = true := by
  have hmem : bad ∈ pre ++ bad :: post :=
    List.mem_append_right _ (List.mem_cons_self _ _)
  refine ⟨?_, ?_, ?_⟩
  · have hplace := studiesHaveImage_final _ _ _ _ (groupUnsorted_places _ bad hmem)
    have h1 : studyKeyOf bad = "unknown-study" := by simp [studyKeyOf, hbad]
    have h2 : seriesKeyOf bad = "unknown-series" := by simp [seriesKeyOf, hbad]
    rwa [h1, h2] at hplace
  · show bad.imageId ∈ groupWarnings (pre ++ bad :: post)
    unfold groupWarnings
    apply List.mem_map_of_mem
    rw [List.mem_filter]
    exact ⟨hmem, hbad⟩
  · rw [List.all_eq_true]
    intro h hh
    have hmem' : h ∈ pre ++ bad :: post := by
      rcases List.mem_append.mp hh with h1 | h1
      · exact List.mem_append_left _ h1
      · exact List.mem_append_right _ (List.mem_cons_of_mem _ h1)
    exact studiesHaveImage_final _ _ _ _ (groupUnsorted_places _ h hmem')

/-- Witness for C6: one throwing handle between two healthy ones. -/
theorem grouping_fetch_failure_isolated_witness :
    sampleHandleBad.metaThrows = true ∧
    studiesHaveImage
        (groupDicomFiles ([sampleHandleA] ++ sampleHandleBad :: [sampleHandleB])).1
        "unknown-study" "unknown-series" sampleHandleBad.imageId = true ∧
    (([sampleHandleA] ++ [sampleHandleB]).all (fun h =>
        studiesHaveImage
          (groupDicomFiles ([sampleHandleA] ++ sampleHandleBad :: [sampleHandleB])).1
          (studyKeyOf h) (seriesKeyOf h) h.imageId)) = true :=
  ⟨rfl,
    (grouping_fetch_failure_isolated [sampleHandleA] [sampleHandleB] sampleHandleBad rfl).1,
    (grouping_fetch_failure_isolated [sampleHandleA] [sampleHandleB] sampleHandleBad rfl).2.2⟩

/-! ### Comparator laws and the sort invariants -/

theorem optNumLe_total (a b : Option Int) : (optNumLe a b || optNumLe b a) = true := by
  cases a <;> cases b <;> simp [optNumLe]
  exact le_total _ _

theorem optNumLe_trans (a b c : Option Int) :
    optNumLe a b = true → optNumLe b c = true → optNumLe a c = true := by
  cases a <;> cases b <;> cases c <;> simp [optNumLe]
  omega

theorem seriesLe_total (a b : DicomSeries) : (seriesLe a b || seriesLe b a) = true :=
  optNumLe_total _ _

theorem seriesLe_trans (a b c : DicomSeries) (h1 : seriesLe a b = true)
    (h2 : seriesLe b c = true) : seriesLe a c = true :=
  optNumLe_trans _ _ _ h1 h2

theorem imageLe_total (a b : DicomImage) : (imageLe a b || imageLe b a) = true :=
  optNumLe_total _ _

theorem imageLe_trans (a b c : DicomImage) (h1 : imageLe a b = true)
    (h2 : imageLe b c = true) : imageLe a c = true :=
  optNumLe_trans _ _ _ h1 h2

theorem studyLe_total (a b : DicomStudy) : (studyLe a b || studyLe b a) = true := by
  unfold studyLe
  cases truthyStr a.studyDate with
  | none => cases truthyStr b.studyDate <;> simp
  | some x =>
    cases truthyStr b.studyDate with
    | none => simp
    | some y =>
      show (strLe y x || strLe x y) = true
      exact strLe_total y x

theorem studyLe_trans (a b c : DicomStudy) :
    studyLe a b = true → studyLe b c = true → studyLe a c = true := by
  unfold studyLe
  cases truthyStr a.studyDate <;> cases truthyStr b.studyDate <;>
    cases truthyStr c.studyDate <;> simp
  exact fun h1 h2 => strLe_trans _ _ _ h2 h1

theorem filter_map_of_pred_comm {α : Type} (f : α → α) (p : α → Bool) (l : List α)
    (hp : ∀ x, p (f x) = p x) :
    (l.map f).filter p = (l.filter p).map f := by
  induction l with
  | nil => rfl
  | cons x xs ih =>
    simp only [List.map_cons, List.filter_cons, hp]
    cases hx : p x
    · simpa using ih
    · simpa using ih

/-- C5 (amended — with equal dates the claimed biconditional is contradictory,
see the counterexample; what the code guarantees is the following, where
"dated" means carrying a JS-truthy `studyDate`, i.e. neither `undefined` nor
`""`, matching the comparator's `!a.studyDate` test): dated studies appear in
non-increasing `studyDate` order, and a strictly more recent dated study
appears strictly earlier; a dated study never appears after a dateless one,
and the dateless studies keep their insertion order; within every study the
series are non-decreasing by `seriesNumber` with undefined sorting last, and
within every series the images are non-decreasing by `instanceNumber` with
undefined sorting last. -/
theorem grouping_sort_invariants (handles : List ImageHandle) :
    ((groupDicomFiles handles).1.Pairwise (fun a b =>
        (∀ d1 d2, truthyStr a.studyDate = some d1 → truthyStr b.studyDate = some d2 →
          strLe d2 d1 = true) ∧
        (truthyStr a.studyDate = none → truthyStr b.studyDate = none))) ∧
    ((groupDicomFiles handles).1.filter (fun st => (truthyStr st.studyDate).isNone)
        = ((groupUnsorted handles).filter
            (fun st => (truthyStr st.studyDate).isNone)).map sortStudyContents) ∧
    (∀ i j : Fin (groupDicomFiles handles).1.length, ∀ d1 d2,
        truthyStr ((groupDicomFiles handles).1.get i).studyDate = some d1 →
        truthyStr ((groupDicomFiles handles).1.get j).studyDate = some d2 →
        strLe d1 d2 = false → i < j) ∧
    (∀ st ∈ (groupDicomFiles handles).1, st.series.Pairwise (fun s1 s2 =>
        (∀ x y, s1.seriesNumber = some x → s2.seriesNumber = some y → x ≤ y) ∧
        (s1.seriesNumber = none → s2.seriesNumber = none))) ∧
    (∀ st ∈ (groupDicomFiles handles).1, ∀ ser ∈ st.series,
        ser.images.Pairwise (fun i1 i2 =>
          (∀ x y, i1.instanceNumber = some x → i2.instanceNumber = some y → x ≤ y) ∧
          (i1.instanceNumber = none → i2.instanceNumber = none))) := by
  have hpw : (groupDicomFiles handles).1.Pairwise (fun a b => studyLe a b = true) :=
    pairwise_sortStable studyLe_trans studyLe_total _
  have himp : ∀ {a b : DicomStudy}, studyLe a b = true →
      (∀ d1 d2, truthyStr a.studyDate = some d1 → truthyStr b.studyDate = some d2 →
        strLe d2 d1 = true) ∧
      (truthyStr a.studyDate = none → truthyStr b.studyDate = none) := by
    intro a b hab
    unfold studyLe at hab
    constructor
    · intro d1 d2 h1 h2
      rw [h1, h2] at hab
      exact hab
    · intro h1
      rw [h1] at hab
      cases hb : truthyStr b.studyDate
      · rfl
      · rw [hb] at hab
        exact absurd hab (by simp)
  refine ⟨hpw.imp himp, ?_, ?_, ?_, ?_⟩
  · show (sortStable studyLe ((groupUnsorted handles).map sortStudyContents)).filter _ = _
    rw [filter_sortStable]
    · exact filter_map_of_pred_comm sortStudyContents _ (groupUnsorted handles)
        (fun x => rfl)
    · intro a ha b
      unfold studyLe
      rw [Option.isNone_iff_eq_none.mp ha]
      cases truthyStr b.studyDate <;> rfl
  · intro i j d1 d2 h1 h2 hlt
    by_contra hij
    rcases Nat.lt_or_ge j.1 i.1 with hji | hji
    · have hle := List.pairwise_iff_get.mp hpw j i hji
      unfold studyLe at hle
      rw [h2, h1] at hle
      have hle' : strLe d1 d2 = true := hle
      rw [hle'] at hlt
      exact absurd hlt (by simp)
    · have hij' : i = j := by
        apply Fin.ext
        omega
      subst hij'
      rw [h1] at h2
      rcases Option.some_inj.mp h2 with rfl
      rw [strLe_refl] at hlt
      exact absurd hlt (by simp)
  · intro st hst
    rcases List.mem_map.mp (mem_sortStable.mp hst) with ⟨st0, _, rfl⟩
    simp only [sortStudyContents]
    rw [List.pairwise_map]
    refine (pairwise_sortStable seriesLe_trans seriesLe_total st0.series).imp ?_
    intro s1 s2 h12
    unfold seriesLe at h12
    constructor
    · intro x y hx hy
      have hx' : s1.seriesNumber = some x := hx
      have hy' : s2.seriesNumber = some y := hy
      rw [hx', hy'] at h12
      exact of_decide_eq_true h12
    · intro hx
      have hx' : s1.seriesNumber = none := hx
      show s2.seriesNumber = none
      rw [hx'] at h12
      cases hy : s2.seriesNumber
      · rfl
      · rw [hy] at h12
        exact absurd (show (false : Bool) = true from h12) (by simp)
  · intro st hst ser hser
    rcases List.mem_map.mp (mem_sortStable.mp hst) with ⟨st0, _, rfl⟩
    simp only [sortStudyContents] at hser
    rcases List.mem_map.mp hser with ⟨ser0, _, rfl⟩
    refine (pairwise_sortStable imageLe_trans imageLe_total ser0.images).imp ?_
    intro i1 i2 h12
    unfold imageLe at h12
    constructor
    · intro x y hx hy
      rw [hx, hy] at h12
      exact of_decide_eq_true h12
    · intro hx
      rw [hx] at h12
      cases hy : i2.instanceNumber
      · rfl
      · rw [hy] at h12
        exact absurd (show (false : Bool) = true from h12) (by simp)

/-- Counterexample to the claimed biconditional "S1 appears before S2 iff
S1.studyDate >= S2.studyDate": two distinct studies share a date, so each
date is >= the other while only one order of appearance can hold. -/
theorem study_order_iff_counterexample :
    ((groupDicomFiles [sampleHandleA, sampleHandleB]).1.map (fun st => st.studyDate))
        = [some "20230101", some "20230101"] ∧
    claimedStudyDateOrder (groupDicomFiles [sampleHandleA, sampleHandleB]).1 = false :=
  ⟨by decide, by decide⟩

/-- Witness for C5: one dated and one dateless (throwing) handle. -/
theorem grouping_sort_invariants_witness :
    (groupDicomFiles [sampleHandleA, sampleHandleBad]).1.filter
        (fun st => (truthyStr st.studyDate).isNone)
      = ((groupUnsorted [sampleHandleA, sampleHandleBad]).filter
          (fun st => (truthyStr st.studyDate).isNone)).map sortStudyContents :=
  (grouping_sort_invariants [sampleHandleA, sampleHandleBad]).2.1
